import Mathlib

set_option linter.unusedVariables false

/-!
Shallow embedding of the multi-target tracker core `src/Tracker/Ctracker.cpp`
(class `CTracker`): the per-frame orchestration `Update` / `UpdateTrackingState`,
the cost-matrix construction `CreateDistaceMatrix`, the appearance
precomputation `CalcEmbeddins`, and the constructor `CTracker::CTracker`.

The floating-point scalar `track_t` is embedded as `ℚ`.  The collaborators the
tracker calls but whose code lives outside this repository (the `CTrack`
motion-filter methods, the assignment solver, the OpenCV histogram routine and
the neural embedding backend) are embedded as parameters (`GeomModel`,
`Oracles.solve`, `Oracles.histCalc`, `EmbeddingsCalculator.calc`), or, where a
claim needs their behaviour, as definitions modelled from the specification and
marked as such in their doc comments.
-/

/-- Image handle: width (`cols`), height (`rows`) and an identity tag standing
for the pixel contents of a `cv::UMat`.  An empty `cv::UMat` has zero size. -/
structure Frame where
  cols : ℕ
  rows : ℕ
  tag : ℕ
deriving DecidableEq

/-- The empty frame, i.e. a default-constructed `cv::UMat`. -/
def Frame.empty : Frame := ⟨0, 0, 0⟩

/-- One detection (`CRegion`): object type tag, oriented-rectangle center and
size (`m_rrect`), axis-aligned bounding rectangle (`m_brect`). -/
structure CRegion where
  m_type : ℤ
  cx : ℚ
  cy : ℚ
  rw : ℚ
  rh : ℚ
  brX : ℚ
  brY : ℚ
  brW : ℚ
  brH : ℚ
deriving DecidableEq

/-- Modelled from the spec: a default-constructed `CRegion()` (the class is not
in the sources); it carries the invalid type tag and zero geometry. -/
def CRegion.empty : CRegion := ⟨-1, 0, 0, 0, 0, 0, 0, 0, 0⟩

instance : Inhabited CRegion := ⟨CRegion.empty⟩

/-- Center of the oriented rectangle of a region (`m_rrect.center`). -/
def CRegion.center (r : CRegion) : ℚ × ℚ := (r.cx, r.cy)

/-- Appearance descriptors of one region in one frame (`RegionEmbedding`):
color histogram, embedding vector and its cached self dot product. -/
structure RegionEmbedding where
  m_hist : List ℚ
  m_embedding : List ℚ
  m_embDot : ℚ
deriving DecidableEq

/-- A freshly resized `RegionEmbedding` slot: everything empty. -/
def RegionEmbedding.empty : RegionEmbedding := ⟨[], [], 0⟩

instance : Inhabited RegionEmbedding := ⟨RegionEmbedding.empty⟩

/-- One tracked identity (`CTrack`), restricted to the state the tracker
orchestration reads and writes: the stable id, the skipped-frames counter
(accessed by reference as `SkippedFrames()` in the source), the static-frames
counter, the out-of-frame flag, the last region, the stored appearance and the
trace of past centers.  The motion-filter internals are opaque per the spec. -/
structure CTrack where
  track_id : ℕ
  skippedFrames : ℕ
  staticFrames : ℕ
  outOfFrame : Bool
  lastRegion : CRegion
  regionEmbedding : Option RegionEmbedding
  trace : List (ℚ × ℚ)
deriving DecidableEq

/-- Modelled from the spec: the `CTrack` constructor (not in the sources).
A track is born from a region, an optional region embedding and a fresh id;
its counters start at zero and its trace is empty (§3 Track, §4.7 step 6).
The motion-filter construction parameters (`kalman_type`, `dt`, ...) only feed
the opaque filter and are omitted. -/
def CTrack.newTrack (reg : CRegion) (re : Option RegionEmbedding) (tid : ℕ) : CTrack :=
  { track_id := tid
    skippedFrames := 0
    staticFrames := 0
    outOfFrame := false
    lastRegion := reg
    regionEmbedding := re
    trace := [] }

instance : Inhabited CTrack := ⟨CTrack.newTrack CRegion.empty none 0⟩

/-- Keep the last `n` elements of a list (front truncation of the trace). -/
def takeLastN (n : ℕ) (l : List (ℚ × ℚ)) : List (ℚ × ℚ) := l.drop (l.length - n)

/-- Modelled from the spec: `CTrack::Update` (not in the sources; §4.5).  With
a measurement (`dataCorrect = true`) the filter ingests the region, the last
region and stored appearance are refreshed, and the new center is appended to
the trace, truncated from the front to `maxTraceLength`.  Without a measurement
the track coasts on its prediction (opaque filter: last region kept).  The
skipped-frames counter is managed by the tracker itself in the sources
(`Ctracker.cpp` lines 102, 108, 164), so it is untouched here; the
static-frames recomputation depends only on the opaque filter displacement and
is likewise untouched.  The identity `track_id` is never changed. -/
def CTrack.update (t : CTrack) (reg : CRegion) (re : Option RegionEmbedding)
    (dataCorrect : Bool) (maxTraceLength : ℕ) (prevFrame currFrame : Frame)
    (trajLen : ℤ) (maxSpeed : ℚ) : CTrack :=
  { t with
    lastRegion := if dataCorrect then reg else t.lastRegion
    regionEmbedding :=
      if dataCorrect then
        match re with
        | some e => some e
        | none => t.regionEmbedding
      else t.regionEmbedding
    trace := takeLastN maxTraceLength
      (t.trace ++ [if dataCorrect then reg.center else t.lastRegion.center]) }

/-- `CTrack::IsOutOfTheFrame` (not in the sources): exposed as the track's
out-of-frame flag. -/
def CTrack.isOutOfTheFrame (t : CTrack) : Bool := t.outOfFrame

/-- Modelled from the spec: `CTrack::IsStaticTimeout` (not in the sources;
§4.5: true when `static_frames ≥ window_frames`). -/
def CTrack.isStaticTimeout (t : CTrack) (framesTime : ℤ) : Bool :=
  decide (framesTime ≤ (t.staticFrames : ℤ))

/-- `cvRound` on the embedded scalar: round to the nearest integer. -/
def cvRound (q : ℚ) : ℤ := round q

/-- Parameters of one embedding backend (`EmbeddingParam`): an opaque
configuration tag and the object types it serves. -/
structure EmbParam where
  cfgId : ℕ
  objectTypes : List ℤ

/-- An embedding backend (`EmbeddingsCalculator`): its `Calc` method producing
an embedding vector for a region crop of the current frame. -/
structure EmbeddingsCalculator where
  calcEmb : Frame → CRegion → List ℚ

/-- Indices of the five distance weights (`tracking::DistType`). -/
def DistCenters : Fin 5 := 0

/-- Index of the rectangle-distance weight. -/
def DistRects : Fin 5 := 1

/-- Index of the Jaccard-distance weight. -/
def DistJaccard : Fin 5 := 2

/-- Index of the histogram-distance weight. -/
def DistHist : Fin 5 := 3

/-- Index of the cosine-embedding-distance weight. -/
def DistFeatureCos : Fin 5 := 4

/-- Tracker configuration (`TrackerSettings`), restricted to the fields the
embedded code reads.  The motion-filter construction fields only feed the
opaque filter and are omitted. -/
structure TrackerSettings where
  distThres : ℚ
  maximumAllowedSkippedFrames : ℕ
  distType : Fin 5 → ℚ
  maxTraceLength : ℕ
  minStaticTime : ℚ
  maxStaticTime : ℚ
  maxSpeedForStatic : ℚ
  useAbandonedDetection : Bool
  minAreaRadiusPix : ℚ
  minAreaRadiusK : ℚ
  checkType : ℤ → ℤ → Bool
  embeddings : List EmbParam

/-- A rotated rectangle (`cv::RotatedRect`), the shape of the prediction
ellipse. -/
structure RotatedRect where
  ecx : ℚ
  ecy : ℚ
  ew : ℚ
  eh : ℚ
  angle : ℚ

/-- The opaque `CTrack` geometry methods the cost-matrix construction calls
(none of them are in the sources): the prediction ellipse, the unit-normalized
radial distance `IsInsideArea`, and the scalar distance functions. -/
structure GeomModel where
  calcPredictionEllipse : CTrack → ℚ × ℚ → RotatedRect
  isInsideArea : CTrack → ℚ × ℚ → RotatedRect → ℚ
  widthDist : CTrack → CRegion → ℚ
  heightDist : CTrack → CRegion → ℚ
  distJaccard : CTrack → CRegion → ℚ
  distHist : CTrack → RegionEmbedding → ℚ
  distCosine : CTrack → RegionEmbedding → ℚ

/-- The external collaborators of one tracker run: the geometry model, the
histogram routine (`cv::calcHist` plus min-max normalization, §4.2) and the
assignment solver `Solve(costMatrix, N, M, assignment, maxCost)` (§4.1). -/
structure Oracles where
  gm : GeomModel
  histCalc : Frame → CRegion → List ℚ
  solve : List ℚ → ℕ → ℕ → ℚ → List (Option ℕ)

/-- Mutable tracker state (`CTracker` members): settings, the next fresh track
id, the owned tracks, the stored previous frame and the per-type embedding
backends. -/
structure CTracker where
  settings : TrackerSettings
  nextTrackID : ℕ
  tracks : List CTrack
  prevFrame : Frame
  embCalculators : List (ℤ × EmbeddingsCalculator)

/-- `std::map::try_emplace` on the association list of embedding backends:
insert only when the key is not yet present. -/
def tryEmplace (m : List (ℤ × EmbeddingsCalculator)) (k : ℤ)
    (v : EmbeddingsCalculator) : List (ℤ × EmbeddingsCalculator) :=
  if m.any (fun p => p.1 == k) then m else m ++ [(k, v)]

/-- `std::map::find` on the association list of embedding backends. -/
def mapFind (m : List (ℤ × EmbeddingsCalculator)) (k : ℤ) :
    Option EmbeddingsCalculator :=
  match m.find? (fun p => p.1 == k) with
  | some p => some p.2
  | none => none

/-- The backend-registration loop of `CTracker::CTracker` (lines 26-40): for
each embedding parameter, when the backend initialization succeeds
(`initf p = some c`), register `c` for every object type the parameter lists;
when it fails (`initf p = none`), register nothing for it and continue. -/
def buildEmbCalculators (initf : EmbParam → Option EmbeddingsCalculator)
    (ps : List EmbParam) : List (ℤ × EmbeddingsCalculator) :=
  ps.foldl
    (fun m p =>
      match initf p with
      | none => m
      | some c => p.objectTypes.foldl (fun m2 t => tryEmplace m2 t c) m)
    []

/-- `CTracker::CTracker` (lines 8-41): the track-id counter starts at `0`, the
track set is empty, the previous frame is the empty image, and the embedding
backends are registered from the settings, skipping the ones whose
initialization failed.  Construction always succeeds. -/
def CTracker.init (s : TrackerSettings)
    (initf : EmbParam → Option EmbeddingsCalculator) : CTracker :=
  { settings := s
    nextTrackID := 0
    tracks := []
    prevFrame := Frame.empty
    embCalculators := buildEmbCalculators initf s.embeddings }

/-- Dot product of two embedding vectors (`cv::Mat::dot`). -/
def listDot (a b : List ℚ) : ℚ :=
  ((a.zip b).map (fun p => p.1 * p.2)).foldl (fun x y => x + y) 0

/-- `CTracker::CalcEmbeddins` (lines 303-356): with no regions nothing is
produced; otherwise the vector is resized to one (empty) slot per region, the
histograms are filled only when the `DistHist` weight is positive, and the
embeddings are filled only when the `DistFeatureCos` weight is positive and a
backend is registered for the region's type; otherwise the slot is left as
resized. -/
def CalcEmbeddins (s : TrackerSettings) (calcs : List (ℤ × EmbeddingsCalculator))
    (histf : Frame → CRegion → List ℚ) (regions : List CRegion) (frame : Frame) :
    List RegionEmbedding :=
  if regions.isEmpty then []
  else
    let r1 : List RegionEmbedding :=
      if s.distType DistHist > 0 then
        regions.map (fun reg =>
          { m_hist := histf frame reg, m_embedding := [], m_embDot := 0 })
      else
        regions.map (fun _ => RegionEmbedding.empty)
    if s.distType DistFeatureCos > 0 then
      (r1.zip regions).map (fun pr =>
        if pr.1.m_embedding.isEmpty then
          match mapFind calcs pr.2.m_type with
          | some c =>
            let v := c.calcEmb frame pr.2
            { pr.1 with m_embedding := v, m_embDot := listDot v v }
          | none => pr.1
        else pr.1)
    else r1

/-- The cost of pairing one track with one region, `CTracker::CreateDistaceMatrix`
inner loop (lines 219-293): `maxPossibleCost` when the type gate rejects the
pair, otherwise the sum of the five weighted distance terms, each skipped when
its weight is not positive.  The prediction ellipse uses the minimum radius
computed from the settings (lines 205-216). -/
def trackCost (gm : GeomModel) (s : TrackerSettings) (maxPossibleCost : ℚ)
    (rembs : List RegionEmbedding) (track : CTrack) (reg : CRegion) (j : ℕ) : ℚ :=
  if s.checkType track.lastRegion.m_type reg.m_type then
    let minRadius : ℚ × ℚ :=
      if s.minAreaRadiusPix < 0 then
        (s.minAreaRadiusK * track.lastRegion.rw, s.minAreaRadiusK * track.lastRegion.rh)
      else
        (s.minAreaRadiusPix, s.minAreaRadiusPix)
    let predictedArea := gm.calcPredictionEllipse track minRadius
    let d0 : ℚ :=
      if s.distType DistCenters > 0 then
        let e := gm.isInsideArea track reg.center predictedArea
        if e > 1 then s.distType DistCenters else e * s.distType DistCenters
      else 0
    let d1 : ℚ :=
      if s.distType DistRects > 0 then
        let e := gm.isInsideArea track reg.center predictedArea
        if e < 1 then
          s.distType DistRects *
            (1 - (1 - e) * (gm.widthDist track reg + gm.heightDist track reg) * (1 / 2))
        else s.distType DistRects
      else 0
    let d2 : ℚ :=
      if s.distType DistJaccard > 0 then s.distType DistJaccard * gm.distJaccard track reg
      else 0
    let d3 : ℚ :=
      if s.distType DistHist > 0 then
        s.distType DistHist * gm.distHist track (rembs.getD j RegionEmbedding.empty)
      else 0
    let d4 : ℚ :=
      if s.distType DistFeatureCos > 0 then
        if reg.m_type = track.lastRegion.m_type then
          s.distType DistFeatureCos * gm.distCosine track (rembs.getD j RegionEmbedding.empty)
        else 0
      else 0
    d0 + d1 + d2 + d3 + d4
  else maxPossibleCost

/-- Entry `(i, j)` of the cost matrix: the cost of track `i` against region
`j`. -/
def costAt (gm : GeomModel) (s : TrackerSettings) (tracks : List CTrack)
    (regions : List CRegion) (rembs : List RegionEmbedding)
    (maxPossibleCost : ℚ) (i j : ℕ) : ℚ :=
  trackCost gm s maxPossibleCost rembs (tracks.getD i default) (regions.getD j default) j

/-- `CTracker::CreateDistaceMatrix` (lines 191-295): the column-major flat cost
matrix of size `N * M`, with entry `i + j * N` holding the cost of track `i`
against region `j`. -/
def CreateDistaceMatrix (gm : GeomModel) (s : TrackerSettings)
    (tracks : List CTrack) (regions : List CRegion)
    (rembs : List RegionEmbedding) (maxPossibleCost : ℚ) : List ℚ :=
  (List.range (tracks.length * regions.length)).map
    (fun k => costAt gm s tracks regions rembs maxPossibleCost
      (k % tracks.length) (k / tracks.length))

/-- Gating decision for one slot (`Ctracker.cpp` lines 95-110): an assigned
slot whose cost exceeds the distance threshold is voided and its track's
skipped-frames counter incremented; an unassigned slot just increments the
counter; an assigned slot within the threshold is kept unchanged. -/
def gateOne (cf : ℕ → ℚ) (thres : ℚ) (p : CTrack × Option ℕ) : CTrack × Option ℕ :=
  match p.2 with
  | some j =>
    if cf j > thres then ({ p.1 with skippedFrames := p.1.skippedFrames + 1 }, none)
    else p
  | none => ({ p.1 with skippedFrames := p.1.skippedFrames + 1 }, none)

/-- The gating loop over the zipped (track, assignment) slots, carrying the
slot index `i` used to address `costMatrix[i + assignment[i] * N]`. -/
def gateList (cf : ℕ → ℕ → ℚ) (thres : ℚ) : ℕ → List (CTrack × Option ℕ) → List (CTrack × Option ℕ)
  | _, [] => []
  | i, p :: rest => gateOne (cf i) thres p :: gateList cf thres (i + 1) rest

/-- The retirement predicate (`Ctracker.cpp` lines 115-117): too many skipped
frames, out of the frame, or static for longer than
`cvRound (fps * (maxStaticTime - minStaticTime))` frames. -/
def retireCond (s : TrackerSettings) (fps : ℚ) (t : CTrack) : Bool :=
  decide (s.maximumAllowedSkippedFrames < t.skippedFrames) ||
    t.isOutOfTheFrame ||
    t.isStaticTimeout (cvRound (fps * (s.maxStaticTime - s.minStaticTime)))

/-- The in-place erase loop of the retirement step (`Ctracker.cpp` lines
113-126): a slot whose track meets the condition is erased (from both the
track vector and the assignment vector, modelled as one list of pairs) and the
scan continues at the same position; otherwise the scan advances. -/
def retireLoop (cond : CTrack → Bool) : List (CTrack × Option ℕ) → List (CTrack × Option ℕ)
  | [] => []
  | p :: rest => if cond p.1 then retireLoop cond rest else p :: retireLoop cond rest

/-- A list paired with the running index, starting at `i` (the region index of
the birth loop). -/
def withIdx : ℕ → List CRegion → List (ℕ × CRegion)
  | _, [] => []
  | i, r :: rest => (i, r) :: withIdx (i + 1) rest

/-- The embedding passed to a new or updated track (`Ctracker.cpp` lines
134-152 and 166-175): nothing when the per-frame embedding vector is empty,
otherwise the region's slot. -/
def embOf (rembs : List RegionEmbedding) (i : ℕ) : Option RegionEmbedding :=
  if rembs.isEmpty then none else some (rembs.getD i RegionEmbedding.empty)

/-- The birth loop (`Ctracker.cpp` lines 130-154) over the indexed regions:
a region whose index occurs nowhere in the assignment vector starts one new
track with the next fresh id, which is then incremented.  Returns the born
tracks in order together with the final id counter. -/
def birthAux (assign : List (Option ℕ)) (rembs : List RegionEmbedding) :
    ℕ → List (ℕ × CRegion) → List CTrack × ℕ
  | nid, [] => ([], nid)
  | nid, (i, r) :: rest =>
    if (some i) ∈ assign then birthAux assign rembs nid rest
    else
      let p := birthAux assign rembs (nid + 1) rest
      (CTrack.newTrack r (embOf rembs i) nid :: p.1, p.2)

/-- The reference shape of the born tracks: one per listed region, with
consecutive ids from `nid`. -/
def mkNews (rembs : List RegionEmbedding) : ℕ → List (ℕ × CRegion) → List CTrack
  | _, [] => []
  | nid, (i, r) :: rest => CTrack.newTrack r (embOf rembs i) nid :: mkNews rembs (nid + 1) rest

/-- The body of the per-track update loop (`Ctracker.cpp` lines 156-181): an
assigned track has its skipped-frames counter set to zero and is updated with
its region (and the region's embedding when the per-frame embedding vector is
not empty); an unassigned track is updated with an empty region and no
measurement. -/
def updateBody (s : TrackerSettings) (regions : List CRegion)
    (rembs : List RegionEmbedding) (prevF currF : Frame) (fps : ℚ)
    (p : CTrack × Option ℕ) : CTrack :=
  match p.2 with
  | some j =>
    let t := { p.1 with skippedFrames := 0 }
    let window : ℤ := if s.useAbandonedDetection then cvRound (s.minStaticTime * fps) else 0
    if rembs.isEmpty then
      CTrack.update t (regions.getD j default) none true s.maxTraceLength prevF currF
        window s.maxSpeedForStatic
    else
      CTrack.update t (regions.getD j default)
        (some (rembs.getD j RegionEmbedding.empty)) true s.maxTraceLength prevF currF
        window s.maxSpeedForStatic
  | none =>
    CTrack.update p.1 CRegion.empty none false s.maxTraceLength prevF currF 0
      s.maxSpeedForStatic

/-- The per-track update phase applied to every surviving slot. -/
def updatePhase (s : TrackerSettings) (regions : List CRegion)
    (rembs : List RegionEmbedding) (prevF currF : Frame) (fps : ℚ)
    (pairs : List (CTrack × Option ℕ)) : List CTrack :=
  pairs.map (updateBody s regions rembs prevF currF fps)

/-- `maxPossibleCost = currFrame.cols * currFrame.rows` (`Ctracker.cpp` line
87). -/
def maxPossibleCost (frame : Frame) : ℚ := ((frame.cols * frame.rows : ℕ) : ℚ)

/-- The per-frame appearance vector of one `Update` call. -/
def regionEmbs (o : Oracles) (st : CTracker) (regions : List CRegion) (frame : Frame) :
    List RegionEmbedding :=
  CalcEmbeddins st.settings st.embCalculators o.histCalc regions frame

/-- The flat cost matrix of one `Update` call. -/
def costList (o : Oracles) (st : CTracker) (regions : List CRegion) (frame : Frame) :
    List ℚ :=
  CreateDistaceMatrix o.gm st.settings st.tracks regions
    (regionEmbs o st regions frame) (maxPossibleCost frame)

/-- The running maximum cost handed to the solver (`maxCost`, lines 88-92). -/
def maxCostOf (o : Oracles) (st : CTracker) (regions : List CRegion) (frame : Frame) : ℚ :=
  (costList o st regions frame).foldl max 0

/-- The assignment vector after the solver (`Ctracker.cpp` lines 78-92): all
`UNASSIGNED` when there are no tracks (the whole association block is
skipped), otherwise the solver's output on the cost matrix. -/
def solvedAssign (o : Oracles) (st : CTracker) (regions : List CRegion) (frame : Frame) :
    List (Option ℕ) :=
  if st.tracks.isEmpty then List.replicate st.tracks.length none
  else
    o.solve (costList o st regions frame) st.tracks.length regions.length
      (maxCostOf o st regions frame)

/-- The (track, assignment) slots after the gating step. -/
def gatedPairs (o : Oracles) (st : CTracker) (regions : List CRegion) (frame : Frame) :
    List (CTrack × Option ℕ) :=
  gateList
    (fun i j => (costList o st regions frame).getD (i + j * st.tracks.length) 0)
    st.settings.distThres 0
    (st.tracks.zip (solvedAssign o st regions frame))

/-- The slots surviving the retirement step. -/
def retainedPairs (o : Oracles) (st : CTracker) (regions : List CRegion) (frame : Frame)
    (fps : ℚ) : List (CTrack × Option ℕ) :=
  retireLoop (retireCond st.settings fps) (gatedPairs o st regions frame)

/-- The assignment vector after retirement, consulted by the birth loop. -/
def retainedAssign (o : Oracles) (st : CTracker) (regions : List CRegion) (frame : Frame)
    (fps : ℚ) : List (Option ℕ) :=
  (retainedPairs o st regions frame fps).map Prod.snd

/-- The tracks born in this frame, in order. -/
def bornTracks (o : Oracles) (st : CTracker) (regions : List CRegion) (frame : Frame)
    (fps : ℚ) : List CTrack :=
  (birthAux (retainedAssign o st regions frame fps) (regionEmbs o st regions frame)
    st.nextTrackID (withIdx 0 regions)).1

/-- The id counter after the birth loop. -/
def nextIdAfterBirth (o : Oracles) (st : CTracker) (regions : List CRegion) (frame : Frame)
    (fps : ℚ) : ℕ :=
  (birthAux (retainedAssign o st regions frame fps) (regionEmbs o st regions frame)
    st.nextTrackID (withIdx 0 regions)).2

/-- The track set at the end of `UpdateTrackingState`: the surviving slots put
through the update loop (the loop bound `stop_i` is the assignment size, so
the tracks born this frame are not updated), followed by the born tracks. -/
def finalTracks (o : Oracles) (st : CTracker) (regions : List CRegion) (frame : Frame)
    (fps : ℚ) : List CTrack :=
  updatePhase st.settings regions (regionEmbs o st regions frame) st.prevFrame frame fps
    (retainedPairs o st regions frame fps) ++ bornTracks o st regions frame fps

/-- `CTracker::UpdateTrackingState` (lines 71-182): mutates the track set and
the id counter; the stored previous frame is read but not written here. -/
def UpdateTrackingState (o : Oracles) (st : CTracker) (regions : List CRegion)
    (frame : Frame) (fps : ℚ) : CTracker :=
  { st with
    tracks := finalTracks o st regions frame fps
    nextTrackID := nextIdAfterBirth o st regions frame fps }

/-- `CTracker::Update` (lines 56-63): run `UpdateTrackingState`, then copy the
current frame into the stored previous frame. -/
def CTracker.Update (o : Oracles) (st : CTracker) (regions : List CRegion)
    (frame : Frame) (fps : ℚ) : CTracker :=
  { UpdateTrackingState o st regions frame fps with prevFrame := frame }

/-- The solver output contract (§4.1): an assignment vector of length `N`
whose entries are `UNASSIGNED` or a region index below `M`, no region index
occurring twice. -/
def ValidAssignment (a : List (Option ℕ)) (N M : ℕ) : Prop :=
  a.length = N ∧
    a.all (fun x => x.all (fun j => decide (j < M))) = true ∧
    (a.filterMap id).Nodup

/-- Unpacking of the entry bound of `ValidAssignment`. -/
theorem ValidAssignment.entry_lt {a : List (Option ℕ)} {N M : ℕ}
    (h : ValidAssignment a N M) {j : ℕ} (hj : some j ∈ a) : j < M := by
  have hall := h.2.1
  rw [List.all_eq_true] at hall
  have := hall (some j) hj
  simpa using this

/-- The per-tracker identity invariant: live track ids are pairwise distinct
and all below the next fresh id. -/
def TrackerInv (st : CTracker) : Prop :=
  (st.tracks.map CTrack.track_id).Nodup ∧
    ∀ t ∈ st.tracks, t.track_id < st.nextTrackID

/-! Basic facts about the modelled track operations. -/

theorem CTrack.update_track_id (t : CTrack) (reg : CRegion) (re : Option RegionEmbedding)
    (b : Bool) (m : ℕ) (pf cf : Frame) (w : ℤ) (ms : ℚ) :
    (CTrack.update t reg re b m pf cf w ms).track_id = t.track_id := rfl

theorem CTrack.update_skippedFrames (t : CTrack) (reg : CRegion) (re : Option RegionEmbedding)
    (b : Bool) (m : ℕ) (pf cf : Frame) (w : ℤ) (ms : ℚ) :
    (CTrack.update t reg re b m pf cf w ms).skippedFrames = t.skippedFrames := rfl

theorem updateBody_track_id (s : TrackerSettings) (regions : List CRegion)
    (rembs : List RegionEmbedding) (pf cf : Frame) (fps : ℚ) (p : CTrack × Option ℕ) :
    (updateBody s regions rembs pf cf fps p).track_id = p.1.track_id := by
  rcases p with ⟨t, a⟩
  cases a with
  | none => rfl
  | some j =>
    simp only [updateBody]
    by_cases h : rembs.isEmpty <;> simp [h, CTrack.update_track_id]

theorem updateBody_skippedFrames_assigned (s : TrackerSettings) (regions : List CRegion)
    (rembs : List RegionEmbedding) (pf cf : Frame) (fps : ℚ) (p : CTrack × Option ℕ)
    (j : ℕ) (h : p.2 = some j) :
    (updateBody s regions rembs pf cf fps p).skippedFrames = 0 := by
  rcases p with ⟨t, a⟩
  cases a with
  | none => simp at h
  | some j2 =>
    simp only [updateBody]
    by_cases hre : rembs.isEmpty <;> simp [hre, CTrack.update_skippedFrames]

/-! Facts about the gating loop. -/

theorem gateList_length (cf : ℕ → ℕ → ℚ) (th : ℚ) :
    ∀ (k : ℕ) (l : List (CTrack × Option ℕ)), (gateList cf th k l).length = l.length := by
  intro k l
  induction l generalizing k with
  | nil => rfl
  | cons p rest ih => simp [gateList, ih]

theorem gateList_getD (cf : ℕ → ℕ → ℚ) (th : ℚ) :
    ∀ (k : ℕ) (l : List (CTrack × Option ℕ)) (i : ℕ), i < l.length →
      (gateList cf th k l).getD i default = gateOne (cf (k + i)) th (l.getD i default) := by
  intro k l
  induction l generalizing k with
  | nil => intro i hi; simp at hi
  | cons p rest ih =>
    intro i hi
    cases i with
    | zero => simp [gateList, List.getD]
    | succ n =>
      simp only [gateList, List.getD_cons_succ]
      have := ih (k + 1) n (by simpa using Nat.lt_of_succ_lt_succ hi)
      rw [this, Nat.add_assoc, Nat.add_comm 1 n]

theorem gateOne_id (cf : ℕ → ℚ) (th : ℚ) (p : CTrack × Option ℕ) :
    (gateOne cf th p).1.track_id = p.1.track_id := by
  rcases p with ⟨t, a⟩
  cases a with
  | none => rfl
  | some j =>
    simp only [gateOne]
    by_cases h : cf j > th <;> simp [h]

theorem gateList_map_id (cf : ℕ → ℕ → ℚ) (th : ℚ) :
    ∀ (k : ℕ) (l : List (CTrack × Option ℕ)),
      (gateList cf th k l).map (fun p => p.1.track_id) = l.map (fun p => p.1.track_id) := by
  intro k l
  induction l generalizing k with
  | nil => rfl
  | cons p rest ih => simp [gateList, gateOne_id, ih]

theorem gateOne_some_src (cf : ℕ → ℚ) (th : ℚ) (p : CTrack × Option ℕ) (j : ℕ)
    (h : (gateOne cf th p).2 = some j) : p.2 = some j := by
  rcases p with ⟨t, a⟩
  cases a with
  | none => simp [gateOne] at h
  | some j2 =>
    simp only [gateOne] at h
    by_cases hc : cf j2 > th <;> simp [hc] at h
    simpa using h

theorem gateList_some_src (cf : ℕ → ℕ → ℚ) (th : ℚ) :
    ∀ (k : ℕ) (l : List (CTrack × Option ℕ)) (q : CTrack × Option ℕ), q ∈ gateList cf th k l →
      ∀ j : ℕ, q.2 = some j → ∃ p ∈ l, p.2 = some j := by
  intro k l
  induction l generalizing k with
  | nil => intro q hq; simp [gateList] at hq
  | cons p rest ih =>
    intro q hq j hj
    simp only [gateList, List.mem_cons] at hq
    rcases hq with hq | hq
    · exact ⟨p, List.mem_cons_self p rest, gateOne_some_src _ _ _ _ (hq ▸ hj)⟩
    · obtain ⟨p2, hp2, hj2⟩ := ih (k + 1) q hq j hj
      exact ⟨p2, List.mem_cons_of_mem _ hp2, hj2⟩

theorem gateList_all_none (cf : ℕ → ℕ → ℚ) (th : ℚ) :
    ∀ (k : ℕ) (l : List (CTrack × Option ℕ)), (∀ p ∈ l, p.2 = none) →
      gateList cf th k l =
        l.map (fun p => ({ p.1 with skippedFrames := p.1.skippedFrames + 1 }, none)) := by
  intro k l
  induction l generalizing k with
  | nil => intro _; rfl
  | cons p rest ih =>
    intro h
    have hp : p.2 = none := h p (List.mem_cons_self p rest)
    rcases p with ⟨t, a⟩
    simp only at hp
    subst hp
    simp [gateList, gateOne, ih (k + 1) (fun q hq => h q (List.mem_cons_of_mem _ hq))]

/-! Facts about the retirement loop. -/

theorem retireLoop_eq_filter (cond : CTrack → Bool) :
    ∀ l : List (CTrack × Option ℕ), retireLoop cond l = l.filter (fun p => !cond p.1) := by
  intro l
  induction l with
  | nil => rfl
  | cons p rest ih =>
    simp only [retireLoop, List.filter_cons]
    by_cases h : cond p.1 <;> simp [h, ih]

/-! Facts about the birth loop. -/

theorem birthAux_eq_mkNews (assign : List (Option ℕ)) (rembs : List RegionEmbedding) :
    ∀ (l : List (ℕ × CRegion)) (nid : ℕ),
      birthAux assign rembs nid l =
        (mkNews rembs nid (l.filter (fun p => !(decide ((some p.1) ∈ assign)))),
          nid + (l.filter (fun p => !(decide ((some p.1) ∈ assign)))).length) := by
  intro l
  induction l with
  | nil => intro nid; simp [birthAux, mkNews]
  | cons pr rest ih =>
    intro nid
    rcases pr with ⟨i, r⟩
    simp only [birthAux, List.filter_cons]
    by_cases h : (some i) ∈ assign
    · simp [h, ih nid]
    · simp only [if_neg h]
      simp [h, ih (nid + 1), mkNews, Nat.add_assoc, Nat.add_comm 1]

theorem mkNews_map_id (rembs : List RegionEmbedding) :
    ∀ (l : List (ℕ × CRegion)) (nid : ℕ),
      (mkNews rembs nid l).map CTrack.track_id = List.range' nid l.length := by
  intro l
  induction l with
  | nil => intro nid; rfl
  | cons pr rest ih =>
    intro nid
    rcases pr with ⟨i, r⟩
    simp [mkNews, List.range'_succ, ih, CTrack.newTrack]

theorem mkNews_mem (rembs : List RegionEmbedding) :
    ∀ (l : List (ℕ × CRegion)) (nid : ℕ) (t : CTrack), t ∈ mkNews rembs nid l →
      ∃ pr ∈ l, ∃ k : ℕ, nid ≤ k ∧ t = CTrack.newTrack pr.2 (embOf rembs pr.1) k := by
  intro l
  induction l with
  | nil => intro nid t ht; simp [mkNews] at ht
  | cons pr rest ih =>
    intro nid t ht
    simp only [mkNews, List.mem_cons] at ht
    rcases ht with ht | ht
    · exact ⟨pr, List.mem_cons_self pr rest, nid, le_refl nid, ht⟩
    · obtain ⟨pr2, hpr2, k, hk, hteq⟩ := ih (nid + 1) t ht
      exact ⟨pr2, List.mem_cons_of_mem _ hpr2, k, le_trans (Nat.le_succ nid) hk, hteq⟩

theorem withIdx_length : ∀ (k : ℕ) (l : List CRegion), (withIdx k l).length = l.length := by
  intro k l
  induction l generalizing k with
  | nil => rfl
  | cons r rest ih => simp [withIdx, ih]

theorem withIdx_mem : ∀ (k : ℕ) (l : List CRegion) (pr : ℕ × CRegion), pr ∈ withIdx k l →
    k ≤ pr.1 ∧ pr.1 - k < l.length ∧ l.getD (pr.1 - k) default = pr.2 := by
  intro k l
  induction l generalizing k with
  | nil => intro pr hpr; simp [withIdx] at hpr
  | cons r rest ih =>
    intro pr hpr
    simp only [withIdx, List.mem_cons] at hpr
    rcases hpr with hpr | hpr
    · subst hpr
      simp
    · obtain ⟨h1, h2, h3⟩ := ih (k + 1) pr hpr
      refine ⟨le_trans (Nat.le_succ k) h1, ?_, ?_⟩
      · have : pr.1 - k = (pr.1 - (k + 1)) + 1 := by omega
        rw [this]
        simpa using Nat.succ_lt_succ h2
      · have : pr.1 - k = (pr.1 - (k + 1)) + 1 := by omega
        rw [this]
        simpa using h3

/-! Generic zip and list facts used to relate the paired representation to the
two separate vectors of the source. -/

theorem map_fst_zip_take {α β : Type} :
    ∀ (l : List α) (l2 : List β), (l.zip l2).map Prod.fst = l.take l2.length := by
  intro l
  induction l with
  | nil => intro l2; simp
  | cons a rest ih =>
    intro l2
    cases l2 with
    | nil => simp
    | cons b rest2 => simp [ih]

theorem zip_replicate_none :
    ∀ (l : List CTrack), l.zip (List.replicate l.length (none : Option ℕ)) =
      l.map (fun t => (t, (none : Option ℕ))) := by
  intro l
  induction l with
  | nil => rfl
  | cons t rest ih => simp [List.replicate, ih]

/-! Facts about the appearance precomputation. -/

theorem CalcEmbeddins_length (s : TrackerSettings) (calcs : List (ℤ × EmbeddingsCalculator))
    (histf : Frame → CRegion → List ℚ) (regions : List CRegion) (frame : Frame)
    (hne : regions ≠ []) :
    (CalcEmbeddins s calcs histf regions frame).length = regions.length := by
  simp only [CalcEmbeddins]
  rw [if_neg (by simpa using hne)]
  by_cases h3 : s.distType DistHist > 0 <;>
    by_cases h4 : s.distType DistFeatureCos > 0 <;>
      simp [h3, h4]

theorem CalcEmbeddins_nil (s : TrackerSettings) (calcs : List (ℤ × EmbeddingsCalculator))
    (histf : Frame → CRegion → List ℚ) (frame : Frame) :
    CalcEmbeddins s calcs histf [] frame = [] := rfl

/-! The column-major layout of the cost matrix. -/

theorem CreateDistaceMatrix_length (gm : GeomModel) (s : TrackerSettings)
    (tracks : List CTrack) (regions : List CRegion) (rembs : List RegionEmbedding)
    (mpc : ℚ) :
    (CreateDistaceMatrix gm s tracks regions rembs mpc).length =
      tracks.length * regions.length := by
  simp [CreateDistaceMatrix]

theorem CreateDistaceMatrix_getD (gm : GeomModel) (s : TrackerSettings)
    (tracks : List CTrack) (regions : List CRegion) (rembs : List RegionEmbedding)
    (mpc : ℚ) (i j : ℕ) (hi : i < tracks.length) (hj : j < regions.length) :
    (CreateDistaceMatrix gm s tracks regions rembs mpc).getD (i + j * tracks.length) 0 =
      costAt gm s tracks regions rembs mpc i j := by
  have hk : i + j * tracks.length < tracks.length * regions.length := by
    calc i + j * tracks.length < tracks.length + j * tracks.length := by omega
    _ = (j + 1) * tracks.length := by ring
    _ ≤ regions.length * tracks.length := Nat.mul_le_mul_right _ (by omega)
    _ = tracks.length * regions.length := Nat.mul_comm _ _
  have hlen : i + j * tracks.length <
      (CreateDistaceMatrix gm s tracks regions rembs mpc).length := by
    rw [CreateDistaceMatrix_length]; exact hk
  rw [List.getD_eq_getElem _ _ hlen]
  simp only [CreateDistaceMatrix, List.getElem_map, List.getElem_range]
  congr 1
  · rw [Nat.add_mul_mod_self_right]
    exact Nat.mod_eq_of_lt hi
  · rw [Nat.add_mul_div_right _ _ (by omega : 0 < tracks.length)]
    rw [Nat.div_eq_of_lt hi, Nat.zero_add]

/-! Claim C1: the gating step. -/

/-- C1.  After the gating step of `Update`, every track `i` still associated
with a region `j` has pre-gating cost `cost[i + j*N] ≤ dist_threshold`; every
track whose solver assignment had `cost[i, assignment[i]] > dist_threshold`
has its assignment voided and its skipped-frames counter incremented by one;
every track the solver left unassigned also has its skipped-frames counter
incremented by one; and every track still associated at the update step has
its skipped-frames counter set to `0` before its update. -/
theorem claim1_gating (o : Oracles) (st : CTracker) (regions : List CRegion)
    (frame : Frame) (fps : ℚ) :
    (∀ i j : ℕ, ((gatedPairs o st regions frame).getD i default).2 = some j →
      (costList o st regions frame).getD (i + j * st.tracks.length) 0 ≤
        st.settings.distThres) ∧
    (∀ i j : ℕ, i < (st.tracks.zip (solvedAssign o st regions frame)).length →
      ((st.tracks.zip (solvedAssign o st regions frame)).getD i default).2 = some j →
      (costList o st regions frame).getD (i + j * st.tracks.length) 0 >
        st.settings.distThres →
      (gatedPairs o st regions frame).getD i default =
        ({ ((st.tracks.zip (solvedAssign o st regions frame)).getD i default).1 with
            skippedFrames :=
              ((st.tracks.zip (solvedAssign o st regions frame)).getD i
                default).1.skippedFrames + 1 }, none)) ∧
    (∀ i : ℕ, i < (st.tracks.zip (solvedAssign o st regions frame)).length →
      ((st.tracks.zip (solvedAssign o st regions frame)).getD i default).2 = none →
      (gatedPairs o st regions frame).getD i default =
        ({ ((st.tracks.zip (solvedAssign o st regions frame)).getD i default).1 with
            skippedFrames :=
              ((st.tracks.zip (solvedAssign o st regions frame)).getD i
                default).1.skippedFrames + 1 }, none)) ∧
    (∀ p ∈ retainedPairs o st regions frame fps, ∀ j : ℕ, p.2 = some j →
      (updateBody st.settings regions (regionEmbs o st regions frame) st.prevFrame
        frame fps p).skippedFrames = 0) := by
  refine ⟨?_, ?_, ?_, ?_⟩
  · intro i j h
    by_cases hi : i < (st.tracks.zip (solvedAssign o st regions frame)).length
    · unfold gatedPairs at h
      rw [gateList_getD _ _ 0 _ i hi] at h
      set p := (st.tracks.zip (solvedAssign o st regions frame)).getD i default with hp
      rcases p with ⟨t, a⟩
      cases a with
      | none => simp [gateOne] at h
      | some j2 =>
        simp only [gateOne] at h
        by_cases hc : (costList o st regions frame).getD
            (0 + i + j2 * st.tracks.length) 0 > st.settings.distThres
        · rw [if_pos hc] at h
          simp at h
        · rw [if_neg hc] at h
          simp only at h
          obtain rfl : j2 = j := by simpa using h
          rw [Nat.zero_add] at hc
          exact le_of_not_lt hc
    · exfalso
      have hlen : (gatedPairs o st regions frame).length =
          (st.tracks.zip (solvedAssign o st regions frame)).length :=
        gateList_length _ _ 0 _
      rw [List.getD_eq_default _ _ (by omega)] at h
      simp at h
  · intro i j hi hsome hc
    unfold gatedPairs
    rw [gateList_getD _ _ 0 _ i hi]
    set p := (st.tracks.zip (solvedAssign o st regions frame)).getD i default with hp
    rcases p with ⟨t, a⟩
    simp only at hsome
    subst hsome
    simp only [gateOne]
    rw [if_pos (by rw [Nat.zero_add]; exact hc)]
  · intro i hi hnone
    unfold gatedPairs
    rw [gateList_getD _ _ 0 _ i hi]
    set p := (st.tracks.zip (solvedAssign o st regions frame)).getD i default with hp
    rcases p with ⟨t, a⟩
    simp only at hnone
    subst hnone
    rfl
  · intro p hp j hj
    exact updateBody_skippedFrames_assigned _ _ _ _ _ _ _ j hj

/-! Concrete fixtures for the witnesses. -/

/-- A geometry model whose distances are all zero (used only by witnesses). -/
def gmZero : GeomModel :=
  { calcPredictionEllipse := fun _ _ => ⟨0, 0, 0, 0, 0⟩
    isInsideArea := fun _ _ _ => 0
    widthDist := fun _ _ => 0
    heightDist := fun _ _ => 0
    distJaccard := fun _ _ => 0
    distHist := fun _ _ => 0
    distCosine := fun _ _ => 0 }

/-- Witness settings: only geometric weights, permissive type gate. -/
def settingsW : TrackerSettings :=
  { distThres := 10
    maximumAllowedSkippedFrames := 3
    distType := fun _ => 0
    maxTraceLength := 16
    minStaticTime := 0
    maxStaticTime := 1
    maxSpeedForStatic := 0
    useAbandonedDetection := false
    minAreaRadiusPix := 1
    minAreaRadiusK := 0
    checkType := fun _ _ => true
    embeddings := [] }

/-- Witness region. -/
def regW : CRegion :=
  { m_type := 0, cx := 1, cy := 1, rw := 2, rh := 2, brX := 0, brY := 0, brW := 2, brH := 2 }

/-- Witness track with id 0. -/
def trackW : CTrack := CTrack.newTrack regW none 0

/-- Witness frame. -/
def frameW : Frame := ⟨640, 480, 1⟩

/-- Witness oracles whose solver always assigns track 0 to region 0. -/
def oraclesW1 : Oracles :=
  { gm := gmZero, histCalc := fun _ _ => [], solve := fun _ _ _ _ => [some 0] }

/-- Witness tracker state with one track. -/
def stW1 : CTracker :=
  { settings := settingsW
    nextTrackID := 1
    tracks := [trackW]
    prevFrame := Frame.empty
    embCalculators := [] }

/-- Witness for C1: in the concrete one-track one-region scenario the kept
association has cost within the threshold. -/
theorem claim1_gating_witness :
    ((gatedPairs oraclesW1 stW1 [regW] frameW).getD 0 default).2 = some 0 ∧
    (costList oraclesW1 stW1 [regW] frameW).getD (0 + 0 * stW1.tracks.length) 0 ≤
      stW1.settings.distThres := by
  have h : ((gatedPairs oraclesW1 stW1 [regW] frameW).getD 0 default).2 = some 0 := by
    simp only [gatedPairs, solvedAssign, stW1, oraclesW1, settingsW, trackW, regW, frameW,
      costList, CreateDistaceMatrix, costAt, trackCost, regionEmbs, CalcEmbeddins,
      maxPossibleCost, gmZero, gateList, gateOne, DistCenters, DistRects, DistJaccard,
      DistHist, DistFeatureCos]
    norm_num [List.getD, CTrack.newTrack]
  exact ⟨h, (claim1_gating oraclesW1 stW1 [regW] frameW 30).1 0 0 h⟩

/-! Claim C2: the retirement step. -/

/-- The id list of the gated slots is a prefix of the id list of the stored
tracks. -/
theorem gatedPairs_map_id (o : Oracles) (st : CTracker) (regions : List CRegion)
    (frame : Frame) :
    (gatedPairs o st regions frame).map (fun p => p.1.track_id) =
      (st.tracks.map CTrack.track_id).take (solvedAssign o st regions frame).length := by
  unfold gatedPairs
  rw [gateList_map_id]
  have h1 : (fun p : CTrack × Option ℕ => p.1.track_id) =
      CTrack.track_id ∘ Prod.fst := rfl
  rw [h1, ← List.map_map, map_fst_zip_take, List.map_take]

/-- The gated id list is duplicate-free under the tracker invariant. -/
theorem gatedPairs_nodup_id (o : Oracles) (st : CTracker) (regions : List CRegion)
    (frame : Frame) (hinv : TrackerInv st) :
    ((gatedPairs o st regions frame).map (fun p => p.1.track_id)).Nodup := by
  rw [gatedPairs_map_id]
  exact List.Nodup.sublist (List.take_sublist _ _) hinv.1

/-- Every gated slot's track id is the id of one of the stored tracks. -/
theorem gatedPairs_id_mem (o : Oracles) (st : CTracker) (regions : List CRegion)
    (frame : Frame) (p : CTrack × Option ℕ) (hp : p ∈ gatedPairs o st regions frame) :
    p.1.track_id ∈ st.tracks.map CTrack.track_id := by
  have := List.mem_map_of_mem (fun q : CTrack × Option ℕ => q.1.track_id) hp
  rw [gatedPairs_map_id] at this
  exact List.mem_of_mem_take this

/-- Every born track's id is at least the pre-frame id counter. -/
theorem bornTracks_id_ge (o : Oracles) (st : CTracker) (regions : List CRegion)
    (frame : Frame) (fps : ℚ) (t : CTrack) (ht : t ∈ bornTracks o st regions frame fps) :
    st.nextTrackID ≤ t.track_id := by
  unfold bornTracks at ht
  rw [birthAux_eq_mkNews] at ht
  simp only at ht
  obtain ⟨pr, hpr, k, hk, rfl⟩ := mkNews_mem _ _ _ _ ht
  exact hk

/-- C2.  A track is removed by the retirement step exactly when its
skipped-frames counter exceeds the maximum, it is out of the frame, or its
static timeout at window `cvRound (fps * (maxStaticTime - minStaticTime))`
fires; the assignment slot is erased in lock-step (the retained list is the
filtered list of gated (track, slot) pairs); and a removed track's id is
absent from the track set after `Update` returns. -/
theorem claim2_retirement (o : Oracles) (st : CTracker) (regions : List CRegion)
    (frame : Frame) (fps : ℚ) (hinv : TrackerInv st) :
    retainedPairs o st regions frame fps =
      (gatedPairs o st regions frame).filter
        (fun p => !retireCond st.settings fps p.1) ∧
    (∀ p ∈ gatedPairs o st regions frame, retireCond st.settings fps p.1 = true →
      ∀ t ∈ (CTracker.Update o st regions frame fps).tracks,
        t.track_id ≠ p.1.track_id) := by
  constructor
  · unfold retainedPairs
    exact retireLoop_eq_filter _ _
  · intro p hp hcond t ht
    have htracks : (CTracker.Update o st regions frame fps).tracks =
        updatePhase st.settings regions (regionEmbs o st regions frame) st.prevFrame
          frame fps (retainedPairs o st regions frame fps) ++
          bornTracks o st regions frame fps := rfl
    rw [htracks, List.mem_append] at ht
    rcases ht with ht | ht
    · simp only [updatePhase, List.mem_map] at ht
      obtain ⟨q, hq, rfl⟩ := ht
      rw [updateBody_track_id]
      intro heq
      have hqg : q ∈ gatedPairs o st regions frame := by
        unfold retainedPairs at hq
        rw [retireLoop_eq_filter] at hq
        exact (List.mem_filter.mp hq).1
      have hqcond : (!retireCond st.settings fps q.1) = true := by
        unfold retainedPairs at hq
        rw [retireLoop_eq_filter] at hq
        exact (List.mem_filter.mp hq).2
      have hqp : q = p :=
        List.inj_on_of_nodup_map (gatedPairs_nodup_id o st regions frame hinv)
          hqg hp heq
      rw [hqp, hcond] at hqcond
      simp at hqcond
    · have hge := bornTracks_id_ge o st regions frame fps t ht
      have hlt : p.1.track_id < st.nextTrackID := by
        have hmem := gatedPairs_id_mem o st regions frame p hp
        simp only [List.mem_map] at hmem
        obtain ⟨t0, ht0, hid⟩ := hmem
        rw [← hid]
        exact hinv.2 t0 ht0
      omega

/-- Witness tracker state for C2: a single track that has already missed four
frames against a limit of three. -/
def trackW2 : CTrack := { trackW with skippedFrames := 4 }

/-- Witness oracle whose solver returns no assignment. -/
def oraclesW2 : Oracles :=
  { gm := gmZero, histCalc := fun _ _ => [], solve := fun _ _ _ _ => [none] }

/-- Witness state for C2. -/
def stW2 : CTracker :=
  { settings := settingsW
    nextTrackID := 1
    tracks := [trackW2]
    prevFrame := Frame.empty
    embCalculators := [] }

/-- The gated slot of the C2 witness scenario. -/
def pairW2 : CTrack × Option ℕ := ({ trackW2 with skippedFrames := 5 }, none)

/-- Witness for C2: in the concrete scenario the over-age track meets the
retirement condition and its id is gone from the post-`Update` track set. -/
theorem claim2_retirement_witness :
    TrackerInv stW2 ∧
    pairW2 ∈ gatedPairs oraclesW2 stW2 [] frameW ∧
    retireCond stW2.settings 30 pairW2.1 = true ∧
    (∀ t ∈ (CTracker.Update oraclesW2 stW2 [] frameW 30).tracks,
      t.track_id ≠ pairW2.1.track_id) := by
  have hinv : TrackerInv stW2 := by
    constructor
    · decide
    · intro t ht
      simp only [stW2, List.mem_singleton] at ht
      subst ht
      decide
  have hmem : pairW2 ∈ gatedPairs oraclesW2 stW2 [] frameW := by
    simp only [gatedPairs, solvedAssign, stW2, oraclesW2, gateList, gateOne, pairW2]
    norm_num
    rfl
  have hcond : retireCond stW2.settings 30 pairW2.1 = true := by
    unfold retireCond
    rw [(by decide :
      decide (stW2.settings.maximumAllowedSkippedFrames < pairW2.1.skippedFrames) = true)]
    simp
  exact ⟨hinv, hmem, hcond,
    (claim2_retirement oraclesW2 stW2 [] frameW 30 hinv).2 pairW2 hmem hcond⟩

/-! Claim C3: track identity management. -/

/-- The indexed regions whose index occurs nowhere in the post-retirement
assignment vector: exactly these give birth to new tracks. -/
def unassignedRegions (o : Oracles) (st : CTracker) (regions : List CRegion)
    (frame : Frame) (fps : ℚ) : List (ℕ × CRegion) :=
  (withIdx 0 regions).filter
    (fun pr => !(decide ((some pr.1) ∈ retainedAssign o st regions frame fps)))

/-- The born tracks in reference shape: one per unassigned region index, with
consecutive ids from the pre-frame counter. -/
theorem bornTracks_eq_mkNews (o : Oracles) (st : CTracker) (regions : List CRegion)
    (frame : Frame) (fps : ℚ) :
    bornTracks o st regions frame fps =
      mkNews (regionEmbs o st regions frame) st.nextTrackID
        (unassignedRegions o st regions frame fps) := by
  unfold bornTracks unassignedRegions
  rw [birthAux_eq_mkNews]

/-- The id counter advances by exactly the number of born tracks. -/
theorem nextIdAfterBirth_eq (o : Oracles) (st : CTracker) (regions : List CRegion)
    (frame : Frame) (fps : ℚ) :
    nextIdAfterBirth o st regions frame fps =
      st.nextTrackID + (unassignedRegions o st regions frame fps).length := by
  unfold nextIdAfterBirth unassignedRegions
  rw [birthAux_eq_mkNews]

/-- The born ids are the consecutive range starting at the pre-frame counter. -/
theorem bornTracks_map_id (o : Oracles) (st : CTracker) (regions : List CRegion)
    (frame : Frame) (fps : ℚ) :
    (bornTracks o st regions frame fps).map CTrack.track_id =
      List.range' st.nextTrackID (unassignedRegions o st regions frame fps).length := by
  rw [bornTracks_eq_mkNews, mkNews_map_id]

/-- The update phase leaves the per-slot track ids unchanged. -/
theorem updatePhase_map_id (s : TrackerSettings) (regions : List CRegion)
    (rembs : List RegionEmbedding) (pf cf : Frame) (fps : ℚ)
    (pairs : List (CTrack × Option ℕ)) :
    (updatePhase s regions rembs pf cf fps pairs).map CTrack.track_id =
      pairs.map (fun p => p.1.track_id) := by
  unfold updatePhase
  rw [List.map_map]
  exact List.map_congr_left (fun p _ => updateBody_track_id s regions rembs pf cf fps p)

/-- Every retained slot's track id is below the pre-frame id counter. -/
theorem retainedPairs_id_lt (o : Oracles) (st : CTracker) (regions : List CRegion)
    (frame : Frame) (fps : ℚ) (hinv : TrackerInv st) :
    ∀ q ∈ retainedPairs o st regions frame fps, q.1.track_id < st.nextTrackID := by
  intro q hq
  have hqg : q ∈ gatedPairs o st regions frame := by
    unfold retainedPairs at hq
    rw [retireLoop_eq_filter] at hq
    exact (List.mem_filter.mp hq).1
  have hmem := gatedPairs_id_mem o st regions frame q hqg
  simp only [List.mem_map] at hmem
  obtain ⟨t0, ht0, hid⟩ := hmem
  rw [← hid]
  exact hinv.2 t0 ht0

/-- The retained id list is duplicate-free under the tracker invariant. -/
theorem retainedPairs_nodup_id (o : Oracles) (st : CTracker) (regions : List CRegion)
    (frame : Frame) (fps : ℚ) (hinv : TrackerInv st) :
    ((retainedPairs o st regions frame fps).map (fun p => p.1.track_id)).Nodup := by
  have hsub : List.Sublist (retainedPairs o st regions frame fps)
      (gatedPairs o st regions frame) := by
    unfold retainedPairs
    rw [retireLoop_eq_filter]
    exact List.filter_sublist _
  exact List.Nodup.sublist (hsub.map _) (gatedPairs_nodup_id o st regions frame hinv)

/-- C3.  For every region index that does not occur in the post-retirement
assignment vector, `Update` creates exactly one new track from that region
with id `next_track_id`, which is then incremented; the counter starts at `0`
at construction and never decreases; and the identity invariant (pairwise
distinct live ids, all below the counter) is preserved, so a retired id is
never reissued within one tracker instance. -/
theorem claim3_identity (o : Oracles) (st : CTracker) (regions : List CRegion)
    (frame : Frame) (fps : ℚ) (hinv : TrackerInv st) :
    (∀ (s : TrackerSettings) (initf : EmbParam → Option EmbeddingsCalculator),
      (CTracker.init s initf).nextTrackID = 0 ∧ (CTracker.init s initf).tracks = []) ∧
    bornTracks o st regions frame fps =
      mkNews (regionEmbs o st regions frame) st.nextTrackID
        (unassignedRegions o st regions frame fps) ∧
    (CTracker.Update o st regions frame fps).nextTrackID =
      st.nextTrackID + (unassignedRegions o st regions frame fps).length ∧
    st.nextTrackID ≤ (CTracker.Update o st regions frame fps).nextTrackID ∧
    (∀ t ∈ bornTracks o st regions frame fps, st.nextTrackID ≤ t.track_id) ∧
    TrackerInv (CTracker.Update o st regions frame fps) := by
  have hnext : (CTracker.Update o st regions frame fps).nextTrackID =
      st.nextTrackID + (unassignedRegions o st regions frame fps).length := by
    show nextIdAfterBirth o st regions frame fps = _
    exact nextIdAfterBirth_eq o st regions frame fps
  have htracks : (CTracker.Update o st regions frame fps).tracks =
      updatePhase st.settings regions (regionEmbs o st regions frame) st.prevFrame
        frame fps (retainedPairs o st regions frame fps) ++
        bornTracks o st regions frame fps := rfl
  refine ⟨fun s initf => ⟨rfl, rfl⟩, bornTracks_eq_mkNews o st regions frame fps,
    hnext, by omega, bornTracks_id_ge o st regions frame fps, ?_, ?_⟩
  · -- pairwise distinct ids after the frame
    rw [htracks, List.map_append, List.nodup_append]
    refine ⟨?_, ?_, ?_⟩
    · rw [updatePhase_map_id]
      exact retainedPairs_nodup_id o st regions frame fps hinv
    · rw [bornTracks_map_id]
      exact List.nodup_range' _ _
    · intro a ha hb
      rw [updatePhase_map_id] at ha
      rw [bornTracks_map_id] at hb
      simp only [List.mem_map] at ha
      obtain ⟨q, hq, hid⟩ := ha
      have hlt := retainedPairs_id_lt o st regions frame fps hinv q hq
      rw [List.mem_range'_1] at hb
      omega
  · -- all ids below the new counter
    intro t ht
    rw [htracks, List.mem_append] at ht
    rw [hnext]
    rcases ht with ht | ht
    · simp only [updatePhase, List.mem_map] at ht
      obtain ⟨q, hq, rfl⟩ := ht
      rw [updateBody_track_id]
      have := retainedPairs_id_lt o st regions frame fps hinv q hq
      omega
    · have hmem := List.mem_map_of_mem CTrack.track_id ht
      rw [bornTracks_map_id, List.mem_range'_1] at hmem
      omega

/-- Witness for C3: the fresh tracker state satisfies the invariant, and after
one frame with one region a single track with id `0` is born and the counter
advances to `1`. -/
theorem claim3_identity_witness :
    TrackerInv (CTracker.init settingsW (fun _ => none)) ∧
    bornTracks oraclesW2 (CTracker.init settingsW (fun _ => none)) [regW] frameW 30 =
      mkNews (regionEmbs oraclesW2 (CTracker.init settingsW (fun _ => none)) [regW] frameW)
        0 (unassignedRegions oraclesW2 (CTracker.init settingsW (fun _ => none)) [regW]
          frameW 30) ∧
    TrackerInv (CTracker.Update oraclesW2 (CTracker.init settingsW (fun _ => none)) [regW]
      frameW 30) := by
  have hinv : TrackerInv (CTracker.init settingsW (fun _ => none)) := by
    constructor
    · simp [CTracker.init]
    · intro t ht
      simp [CTracker.init] at ht
  have h := claim3_identity oraclesW2 (CTracker.init settingsW (fun _ => none)) [regW]
    frameW 30 hinv
  exact ⟨hinv, h.2.1, h.2.2.2.2.2⟩

/-! Claim C4: the cost bound. -/

/-- Modelled from the spec: the ranges of the opaque distance functions
(§4.5: the five distance functions return values in `[0, 1]`; §4.4: the
unit-normalized radial distance is nonnegative). -/
def SpecTermBounds (gm : GeomModel) : Prop :=
  (∀ t p e, 0 ≤ gm.isInsideArea t p e) ∧
  (∀ t r, 0 ≤ gm.widthDist t r ∧ gm.widthDist t r ≤ 1) ∧
  (∀ t r, 0 ≤ gm.heightDist t r ∧ gm.heightDist t r ≤ 1) ∧
  (∀ t r, 0 ≤ gm.distJaccard t r ∧ gm.distJaccard t r ≤ 1) ∧
  (∀ t re, 0 ≤ gm.distHist t re ∧ gm.distHist t re ≤ 1) ∧
  (∀ t re, 0 ≤ gm.distCosine t re ∧ gm.distCosine t re ≤ 1)

/-- The sum of the five configured distance weights. -/
def sumWeights (s : TrackerSettings) : ℚ :=
  s.distType DistCenters + s.distType DistRects + s.distType DistJaccard +
    s.distType DistHist + s.distType DistFeatureCos

/-- Upper bound of the five accumulated weighted terms by the sum of the
weights. -/
theorem fiveTermBound (w0 w1 w2 w3 w4 e dw dh jac hist cos : ℚ) (tEq : Prop)
    [Decidable tEq]
    (hw0 : 0 ≤ w0) (hw1 : 0 ≤ w1) (hw2 : 0 ≤ w2) (hw3 : 0 ≤ w3) (hw4 : 0 ≤ w4)
    (hdw : 0 ≤ dw) (hdh : 0 ≤ dh) (hjac : jac ≤ 1) (hhist : hist ≤ 1)
    (hcos : cos ≤ 1) :
    (if w0 > 0 then (if e > 1 then w0 else e * w0) else 0) +
      (if w1 > 0 then
        (if e < 1 then w1 * (1 - (1 - e) * (dw + dh) * (1 / 2)) else w1) else 0) +
      (if w2 > 0 then w2 * jac else 0) +
      (if w3 > 0 then w3 * hist else 0) +
      (if w4 > 0 then (if tEq then w4 * cos else 0) else 0) ≤
      w0 + w1 + w2 + w3 + w4 := by
  have h0 : (if w0 > 0 then (if e > 1 then w0 else e * w0) else 0) ≤ w0 := by
    split_ifs with h1 h2
    · exact le_refl w0
    · nlinarith [le_of_not_lt h2]
    · exact hw0
  have h1 : (if w1 > 0 then
      (if e < 1 then w1 * (1 - (1 - e) * (dw + dh) * (1 / 2)) else w1) else 0) ≤ w1 := by
    split_ifs with hg hlt
    · nlinarith [mul_nonneg (mul_nonneg (le_of_lt hg) (by linarith : (0:ℚ) ≤ 1 - e))
        (by linarith : (0:ℚ) ≤ dw + dh)]
    · exact le_refl w1
    · exact hw1
  have h2 : (if w2 > 0 then w2 * jac else 0) ≤ w2 := by
    split_ifs with hg
    · nlinarith
    · exact hw2
  have h3 : (if w3 > 0 then w3 * hist else 0) ≤ w3 := by
    split_ifs with hg
    · nlinarith
    · exact hw3
  have h4 : (if w4 > 0 then (if tEq then w4 * cos else 0) else 0) ≤ w4 := by
    split_ifs with hg ht
    · nlinarith
    · exact le_of_lt hg
    · exact hw4
  linarith

/-- When the type gate accepts, the pair cost is at most the sum of the
weights. -/
theorem trackCost_le_sumWeights (gm : GeomModel) (s : TrackerSettings) (mpc : ℚ)
    (rembs : List RegionEmbedding) (track : CTrack) (reg : CRegion) (j : ℕ)
    (hb : SpecTermBounds gm) (hw : ∀ k, 0 ≤ s.distType k)
    (hct : s.checkType track.lastRegion.m_type reg.m_type = true) :
    trackCost gm s mpc rembs track reg j ≤ sumWeights s := by
  obtain ⟨hbe, hbw, hbh, hbj, hbhist, hbcos⟩ := hb
  simp only [trackCost, hct, if_true]
  exact fiveTermBound _ _ _ _ _ _ _ _ _ _ _ _
    (hw DistCenters) (hw DistRects) (hw DistJaccard) (hw DistHist) (hw DistFeatureCos)
    (hbw track reg).1 (hbh track reg).1 (hbj track reg).2
    (hbhist track (rembs.getD j RegionEmbedding.empty)).2
    (hbcos track (rembs.getD j RegionEmbedding.empty)).2

/-- When the type gate rejects, the pair cost is exactly `maxPossibleCost`. -/
theorem trackCost_of_reject (gm : GeomModel) (s : TrackerSettings) (mpc : ℚ)
    (rembs : List RegionEmbedding) (track : CTrack) (reg : CRegion) (j : ℕ)
    (hct : s.checkType track.lastRegion.m_type reg.m_type = false) :
    trackCost gm s mpc rembs track reg j = mpc := by
  simp only [trackCost, hct]
  simp

/-- C4 (amended).  Provided the configured weights are nonnegative, the opaque
distance terms satisfy their specified `[0, 1]` ranges, and the weights sum to
at most `max_possible_cost = frame_width * frame_height`, every cost matrix
entry satisfies `cost[i + j*N] ≤ max_possible_cost`; the entry equals
`max_possible_cost` whenever the type gate rejected the pair, and, when the
weight sum is strictly below `max_possible_cost`, only then. -/
theorem claim4_cost_bound (gm : GeomModel) (s : TrackerSettings) (tracks : List CTrack)
    (regions : List CRegion) (rembs : List RegionEmbedding) (frame : Frame) (i j : ℕ)
    (hb : SpecTermBounds gm) (hw : ∀ k, 0 ≤ s.distType k)
    (hsum : sumWeights s ≤ maxPossibleCost frame)
    (hi : i < tracks.length) (hj : j < regions.length) :
    (CreateDistaceMatrix gm s tracks regions rembs (maxPossibleCost frame)).getD
        (i + j * tracks.length) 0 ≤ maxPossibleCost frame ∧
    (s.checkType (tracks.getD i default).lastRegion.m_type
        (regions.getD j default).m_type = false →
      (CreateDistaceMatrix gm s tracks regions rembs (maxPossibleCost frame)).getD
          (i + j * tracks.length) 0 = maxPossibleCost frame) ∧
    (sumWeights s < maxPossibleCost frame →
      (CreateDistaceMatrix gm s tracks regions rembs (maxPossibleCost frame)).getD
          (i + j * tracks.length) 0 = maxPossibleCost frame →
      s.checkType (tracks.getD i default).lastRegion.m_type
        (regions.getD j default).m_type = false) := by
  rw [CreateDistaceMatrix_getD gm s tracks regions rembs (maxPossibleCost frame) i j hi hj]
  unfold costAt
  refine ⟨?_, ?_, ?_⟩
  · cases hct : s.checkType (tracks.getD i default).lastRegion.m_type
        (regions.getD j default).m_type with
    | false => rw [trackCost_of_reject gm s _ rembs _ _ j hct]
    | true =>
      exact le_trans (trackCost_le_sumWeights gm s _ rembs _ _ j hb hw hct) hsum
  · intro hct
    exact trackCost_of_reject gm s _ rembs _ _ j hct
  · intro hstrict heq
    by_contra hct
    rw [Bool.not_eq_false] at hct
    have := trackCost_le_sumWeights gm s (maxPossibleCost frame) rembs
      (tracks.getD i default) (regions.getD j default) j hb hw hct
    rw [heq] at this
    linarith

/-- Counterexample geometry for C4: the region center lies outside the
prediction ellipse (radial distance 2). -/
def gmFar : GeomModel := { gmZero with isInsideArea := fun _ _ _ => 2 }

/-- Counterexample settings for C4: centers weight 2, everything else zero. -/
def settingsC4a : TrackerSettings :=
  { settingsW with distType := fun k => if k = DistCenters then 2 else 0 }

/-- Second counterexample settings for C4: centers weight 1. -/
def settingsC4b : TrackerSettings :=
  { settingsW with distType := fun k => if k = DistCenters then 1 else 0 }

/-- A one-pixel frame, so `maxPossibleCost = 1`. -/
def frameTiny : Frame := ⟨1, 1, 0⟩

/-- Counterexample to C4 as stated.  With a 1x1 frame (`max_possible_cost = 1`),
a type-compatible pair and centers weight 2, the built cost entry is 2, above
`max_possible_cost`; and with centers weight 1 the entry equals
`max_possible_cost` even though the type gate accepted, refuting the claimed
equivalence. -/
theorem claim4_counterexample :
    maxPossibleCost frameTiny = 1 ∧
    settingsC4a.checkType trackW.lastRegion.m_type regW.m_type = true ∧
    (CreateDistaceMatrix gmFar settingsC4a [trackW] [regW] []
        (maxPossibleCost frameTiny)).getD (0 + 0 * 1) 0 = 2 ∧
    ¬ ((CreateDistaceMatrix gmFar settingsC4a [trackW] [regW] []
        (maxPossibleCost frameTiny)).getD (0 + 0 * 1) 0 ≤ maxPossibleCost frameTiny) ∧
    settingsC4b.checkType trackW.lastRegion.m_type regW.m_type = true ∧
    (CreateDistaceMatrix gmFar settingsC4b [trackW] [regW] []
        (maxPossibleCost frameTiny)).getD (0 + 0 * 1) 0 = maxPossibleCost frameTiny := by
  have hmpc : maxPossibleCost frameTiny = 1 := by norm_num [maxPossibleCost, frameTiny]
  have ha : (CreateDistaceMatrix gmFar settingsC4a [trackW] [regW] []
      (maxPossibleCost frameTiny)).getD (0 + 0 * 1) 0 = 2 := by
    simp only [CreateDistaceMatrix, costAt, trackCost, settingsC4a, settingsW, gmFar,
      gmZero, trackW, regW, CTrack.newTrack, DistCenters, DistRects, DistJaccard,
      DistHist, DistFeatureCos, List.length_singleton, List.length_cons, List.length_nil]
    norm_num [List.getD, List.range, List.range.loop]
  have hb : (CreateDistaceMatrix gmFar settingsC4b [trackW] [regW] []
      (maxPossibleCost frameTiny)).getD (0 + 0 * 1) 0 = 1 := by
    simp only [CreateDistaceMatrix, costAt, trackCost, settingsC4b, settingsW, gmFar,
      gmZero, trackW, regW, CTrack.newTrack, DistCenters, DistRects, DistJaccard,
      DistHist, DistFeatureCos, List.length_singleton, List.length_cons, List.length_nil]
    norm_num [List.getD, List.range, List.range.loop]
  refine ⟨hmpc, rfl, ha, ?_, rfl, by rw [hb, hmpc]⟩
  rw [ha, hmpc]
  norm_num

/-- Witness for C4 (amended): the all-zero geometry and weights satisfy the
hypotheses and the bound holds on the concrete entry. -/
theorem claim4_cost_bound_witness :
    SpecTermBounds gmZero ∧
    sumWeights settingsW ≤ maxPossibleCost frameW ∧
    (CreateDistaceMatrix gmZero settingsW [trackW] [regW] []
        (maxPossibleCost frameW)).getD (0 + 0 * [trackW].length) 0 ≤
      maxPossibleCost frameW := by
  have hb : SpecTermBounds gmZero := by
    refine ⟨?_, ?_, ?_, ?_, ?_, ?_⟩ <;> intros <;> norm_num [gmZero]
  have hw : ∀ k, 0 ≤ settingsW.distType k := fun k => le_refl 0
  have hsum : sumWeights settingsW ≤ maxPossibleCost frameW := by
    norm_num [sumWeights, settingsW, maxPossibleCost, frameW]
  exact ⟨hb, hsum, (claim4_cost_bound gmZero settingsW [trackW] [regW] [] frameW 0 0
    hb hw hsum (by decide) (by decide)).1⟩

/-! Claim C5: the individual distance terms. -/

/-- The pair cost written exactly as the specification words it (§4.6 step 4):
Centers adds `w_c * 1` outside the gate and `w_c * e` inside; Rects adds
`w_r * (1 - (1 - e) * (dw + dh) * 0.5)` inside and `w_r * 1` outside; Jaccard
and Hist add their weighted distances; FeatureCos is added only when the
region type equals the track's last-region type and its weight is positive;
every zero-weight term contributes nothing. -/
def specCost (gm : GeomModel) (s : TrackerSettings) (rembs : List RegionEmbedding)
    (track : CTrack) (reg : CRegion) (j : ℕ) : ℚ :=
  let minRadius : ℚ × ℚ :=
    if s.minAreaRadiusPix < 0 then
      (s.minAreaRadiusK * track.lastRegion.rw, s.minAreaRadiusK * track.lastRegion.rh)
    else (s.minAreaRadiusPix, s.minAreaRadiusPix)
  let e := gm.isInsideArea track reg.center (gm.calcPredictionEllipse track minRadius)
  (if s.distType DistCenters > 0 then
    (if e > 1 then s.distType DistCenters * 1 else s.distType DistCenters * e) else 0) +
  (if s.distType DistRects > 0 then
    (if e < 1 then
      s.distType DistRects *
        (1 - (1 - e) * (gm.widthDist track reg + gm.heightDist track reg) * (1 / 2))
    else s.distType DistRects * 1) else 0) +
  (if s.distType DistJaccard > 0 then
    s.distType DistJaccard * gm.distJaccard track reg else 0) +
  (if s.distType DistHist > 0 then
    s.distType DistHist * gm.distHist track (rembs.getD j RegionEmbedding.empty) else 0) +
  (if reg.m_type = track.lastRegion.m_type ∧ s.distType DistFeatureCos > 0 then
    s.distType DistFeatureCos * gm.distCosine track (rembs.getD j RegionEmbedding.empty)
  else 0)

/-- Commuting the centers term into the spec's shape. -/
theorem centersTermComm (w e : ℚ) :
    (if w > 0 then (if e > 1 then w else e * w) else 0) =
      (if w > 0 then (if e > 1 then w * 1 else w * e) else 0) := by
  split_ifs <;> ring

/-- The rects term: `w` versus `w * 1` outside the gate. -/
theorem rectsTermComm (w a : ℚ) (cond : Prop) [Decidable cond] :
    (if w > 0 then (if cond then a else w) else 0) =
      (if w > 0 then (if cond then a else w * 1) else 0) := by
  split_ifs <;> ring

/-- The cosine term: the nested gate equals the conjunction the spec states. -/
theorem cosTermAnd (w c : ℚ) (tEq : Prop) [Decidable tEq] :
    (if w > 0 then (if tEq then w * c else 0) else 0) =
      (if tEq ∧ w > 0 then w * c else 0) := by
  split_ifs <;> tauto

/-- C5.  For every type-compatible pair the cost built by the source equals
the spec-shaped sum of terms: Centers contributes `w_c * 1` when `e > 1` and
`w_c * e` otherwise, Rects contributes
`w_r * (1 - (1 - e) * (dw + dh) * 0.5)` when `e < 1` and `w_r * 1` otherwise,
FeatureCos is added only when the region's type equals the track's
last-region type and its weight is positive, and zero-weight terms contribute
nothing. -/
theorem claim5_terms (gm : GeomModel) (s : TrackerSettings) (mpc : ℚ)
    (rembs : List RegionEmbedding) (track : CTrack) (reg : CRegion) (j : ℕ)
    (hct : s.checkType track.lastRegion.m_type reg.m_type = true) :
    trackCost gm s mpc rembs track reg j = specCost gm s rembs track reg j := by
  simp only [trackCost, specCost, hct, if_true]
  rw [centersTermComm, rectsTermComm, cosTermAnd]

/-- Witness for C5: the concrete type-compatible scenario evaluates equally on
both shapes. -/
theorem claim5_terms_witness :
    settingsW.checkType trackW.lastRegion.m_type regW.m_type = true ∧
    trackCost gmZero settingsW 1 [] trackW regW 0 =
      specCost gmZero settingsW [] trackW regW 0 :=
  ⟨rfl, claim5_terms gmZero settingsW 1 [] trackW regW 0 rfl⟩

/-! Claim C6: extraction gating and backend registration. -/

/-- A successful lookup after `tryEmplace` comes from the old map or is the
inserted binding. -/
theorem tryEmplace_sound (m : List (ℤ × EmbeddingsCalculator)) (k : ℤ)
    (v : EmbeddingsCalculator) (t : ℤ) (c : EmbeddingsCalculator)
    (h : mapFind (tryEmplace m k v) t = some c) :
    mapFind m t = some c ∨ (t = k ∧ c = v) := by
  unfold tryEmplace at h
  by_cases hany : m.any (fun p => p.1 == k)
  · rw [if_pos hany] at h
    exact Or.inl h
  · rw [if_neg hany] at h
    unfold mapFind at h ⊢
    rw [List.find?_append] at h
    cases hfind : List.find? (fun p => p.1 == t) m with
    | some p => rw [hfind] at h; simp_all
    | none =>
      rw [hfind] at h
      simp only [Option.none_or] at h
      rw [List.find?_cons] at h
      by_cases hkt : k = t
      · subst hkt
        simp at h
        exact Or.inr ⟨rfl, h.symm⟩
      · have : ((k, v).1 == t) = false := by simpa using hkt
        rw [this] at h
        simp at h

/-- A successful lookup after registering one backend for a list of types
comes from the old map or is that backend at one of the listed types. -/
theorem regFold_sound (c0 : EmbeddingsCalculator) :
    ∀ (ts : List ℤ) (m : List (ℤ × EmbeddingsCalculator)) (t : ℤ)
      (c : EmbeddingsCalculator),
      mapFind (ts.foldl (fun m2 k => tryEmplace m2 k c0) m) t = some c →
      mapFind m t = some c ∨ (c = c0 ∧ t ∈ ts) := by
  intro ts
  induction ts with
  | nil => intro m t c h; exact Or.inl h
  | cons k rest ih =>
    intro m t c h
    simp only [List.foldl_cons] at h
    rcases ih (tryEmplace m k c0) t c h with h2 | h2
    · rcases tryEmplace_sound m k c0 t c h2 with h3 | h3
      · exact Or.inl h3
      · exact Or.inr ⟨h3.2, by simp [h3.1]⟩
    · exact Or.inr ⟨h2.1, List.mem_cons_of_mem _ h2.2⟩

/-- Registration soundness of the constructor loop: a registered backend for
type `t` comes from some parameter whose initialization succeeded and whose
type list contains `t`; a failed parameter registers nothing. -/
theorem buildEmbCalculators_sound (initf : EmbParam → Option EmbeddingsCalculator) :
    ∀ (ps : List EmbParam) (m : List (ℤ × EmbeddingsCalculator)) (t : ℤ)
      (c : EmbeddingsCalculator),
      mapFind (ps.foldl
        (fun m p =>
          match initf p with
          | none => m
          | some c2 => p.objectTypes.foldl (fun m2 k => tryEmplace m2 k c2) m) m) t =
        some c →
      mapFind m t = some c ∨ ∃ p ∈ ps, initf p = some c ∧ t ∈ p.objectTypes := by
  intro ps
  induction ps with
  | nil => intro m t c h; exact Or.inl h
  | cons p rest ih =>
    intro m t c h
    simp only [List.foldl_cons] at h
    cases hinit : initf p with
    | none =>
      rw [hinit] at h
      rcases ih _ t c h with h2 | h2
      · exact Or.inl h2
      · obtain ⟨p2, hp2, h3⟩ := h2
        exact Or.inr ⟨p2, List.mem_cons_of_mem _ hp2, h3⟩
    | some c2 =>
      rw [hinit] at h
      rcases ih _ t c h with h2 | h2
      · rcases regFold_sound c2 p.objectTypes m t c h2 with h3 | h3
        · exact Or.inl h3
        · exact Or.inr ⟨p, List.mem_cons_self p rest, by rw [hinit, h3.1], h3.2⟩
      · obtain ⟨p2, hp2, h3⟩ := h2
        exact Or.inr ⟨p2, List.mem_cons_of_mem _ hp2, h3⟩

/-- C6.  Histograms are computed only when the `DistHist` weight is strictly
positive and embeddings only when the `DistFeatureCos` weight is strictly
positive; a backend whose initialization failed is registered for none of its
object types while tracker construction still succeeds; and a region whose
type has no registered backend keeps an empty embedding. -/
theorem claim6_extraction (s : TrackerSettings) (calcs : List (ℤ × EmbeddingsCalculator))
    (histf : Frame → CRegion → List ℚ) (regions : List CRegion) (frame : Frame) :
    (s.distType DistHist ≤ 0 →
      ∀ re ∈ CalcEmbeddins s calcs histf regions frame, re.m_hist = []) ∧
    (s.distType DistFeatureCos ≤ 0 →
      ∀ re ∈ CalcEmbeddins s calcs histf regions frame,
        re.m_embedding = [] ∧ re.m_embDot = 0) ∧
    (∀ (initf : EmbParam → Option EmbeddingsCalculator) (s2 : TrackerSettings)
      (t : ℤ) (c : EmbeddingsCalculator),
      (CTracker.init s2 initf).embCalculators = buildEmbCalculators initf s2.embeddings ∧
      (mapFind (buildEmbCalculators initf s2.embeddings) t = some c →
        ∃ p ∈ s2.embeddings, initf p = some c ∧ t ∈ p.objectTypes)) ∧
    (∀ j : ℕ, j < regions.length →
      mapFind calcs (regions.getD j default).m_type = none →
      ((CalcEmbeddins s calcs histf regions frame).getD j RegionEmbedding.empty).m_embedding
        = []) := by
  refine ⟨?_, ?_, ?_, ?_⟩
  · intro hle re hre
    have h3 : ¬ (s.distType DistHist > 0) := not_lt_of_le hle
    unfold CalcEmbeddins at hre
    by_cases hemp : regions.isEmpty
    · rw [if_pos hemp] at hre
      simp at hre
    · rw [if_neg hemp] at hre
      by_cases h4 : s.distType DistFeatureCos > 0
      · rw [if_pos h4, if_neg h3] at hre
        simp only [List.mem_map] at hre
        obtain ⟨pr, hpr, rfl⟩ := hre
        have hfst : pr.1 ∈ regions.map (fun _ => RegionEmbedding.empty) :=
          (List.of_mem_zip hpr).1
        simp only [List.mem_map] at hfst
        obtain ⟨r0, hr0, heq⟩ := hfst
        by_cases hempmb : pr.1.m_embedding.isEmpty
        · rw [if_pos hempmb]
          cases hfind : mapFind calcs pr.2.m_type with
          | some c => simp [← heq, RegionEmbedding.empty]
          | none => simp [← heq, RegionEmbedding.empty]
        · rw [if_neg hempmb]
          simp [← heq, RegionEmbedding.empty]
      · rw [if_neg h4, if_neg h3] at hre
        simp only [List.mem_map] at hre
        obtain ⟨r0, hr0, rfl⟩ := hre
        rfl
  · intro hle re hre
    have h4 : ¬ (s.distType DistFeatureCos > 0) := not_lt_of_le hle
    unfold CalcEmbeddins at hre
    by_cases hemp : regions.isEmpty
    · rw [if_pos hemp] at hre
      simp at hre
    · rw [if_neg hemp, if_neg h4] at hre
      by_cases h3 : s.distType DistHist > 0
      · rw [if_pos h3] at hre
        simp only [List.mem_map] at hre
        obtain ⟨r0, hr0, rfl⟩ := hre
        exact ⟨rfl, rfl⟩
      · rw [if_neg h3] at hre
        simp only [List.mem_map] at hre
        obtain ⟨r0, hr0, rfl⟩ := hre
        exact ⟨rfl, rfl⟩
  · intro initf s2 t c
    refine ⟨rfl, ?_⟩
    intro h
    have := buildEmbCalculators_sound initf s2.embeddings [] t c (by
      simpa [buildEmbCalculators] using h)
    rcases this with h2 | h2
    · simp [mapFind] at h2
    · exact h2
  · intro j hj hfind
    have hemp : ¬ regions.isEmpty := by
      cases regions with
      | nil => simp at hj
      | cons r rest => simp
    have hregj : regions.getD j default = regions[j] := List.getD_eq_getElem _ _ hj
    unfold CalcEmbeddins
    rw [if_neg hemp]
    by_cases h4 : s.distType DistFeatureCos > 0
    · rw [if_pos h4]
      by_cases h3 : s.distType DistHist > 0
      · rw [if_pos h3]
        have hlen : j < ((regions.map (fun reg =>
            ({ m_hist := histf frame reg, m_embedding := [], m_embDot := 0 } :
              RegionEmbedding))).zip regions).length := by
          rw [List.length_zip]
          simp
          omega
        rw [List.getD_eq_getElem _ _ (by simpa using hlen)]
        rw [List.getElem_map, List.getElem_zip, List.getElem_map]
        rw [if_pos (by rfl :
          (({ m_hist := histf frame regions[j], m_embedding := [], m_embDot := 0 } :
            RegionEmbedding)).m_embedding.isEmpty = true)]
        rw [← hregj, hfind]
      · rw [if_neg h3]
        have hlen : j < ((regions.map (fun _ =>
            RegionEmbedding.empty)).zip regions).length := by
          rw [List.length_zip]
          simp
          omega
        rw [List.getD_eq_getElem _ _ (by simpa using hlen)]
        rw [List.getElem_map, List.getElem_zip, List.getElem_map]
        rw [if_pos (by rfl : RegionEmbedding.empty.m_embedding.isEmpty = true)]
        rw [← hregj, hfind]
        rfl
    · rw [if_neg h4]
      by_cases h3 : s.distType DistHist > 0
      · rw [if_pos h3]
        rw [List.getD_eq_getElem _ _ (by simpa using hj)]
        rw [List.getElem_map]
      · rw [if_neg h3]
        rw [List.getD_eq_getElem _ _ (by simpa using hj)]
        rw [List.getElem_map]
        rfl

/-- Witness settings for C6: both appearance weights zero. -/
def settingsW6 : TrackerSettings := settingsW

/-- Witness for C6: with zero weights the produced slot for the single region
has empty histogram and embedding, and the type has no registered backend. -/
theorem claim6_extraction_witness :
    settingsW6.distType DistHist ≤ 0 ∧
    mapFind [] regW.m_type = none ∧
    (∀ re ∈ CalcEmbeddins settingsW6 [] (fun _ _ => []) [regW] frameW, re.m_hist = []) ∧
    ((CalcEmbeddins settingsW6 [] (fun _ _ => []) [regW] frameW).getD 0
      RegionEmbedding.empty).m_embedding = [] := by
  have h := claim6_extraction settingsW6 [] (fun _ _ => []) [regW] frameW
  refine ⟨le_refl 0, rfl, h.1 (le_refl 0), h.2.2.2 0 (by decide) ?_⟩
  have : regW.m_type = ([regW].getD 0 default).m_type := rfl
  rfl

/-! Claim C7: the empty frame. -/

/-- C7.  With an empty region list, no appearance slots are produced, every
track ends the frame unassociated with its skipped-frames counter incremented,
no track is born, and the retirement step still removes exactly the tracks
meeting the retirement predicate before the survivors receive an unassigned
update with an empty region. -/
theorem claim7_empty_frame (o : Oracles) (st : CTracker) (frame : Frame) (fps : ℚ)
    (hv : ValidAssignment (solvedAssign o st [] frame) st.tracks.length 0) :
    regionEmbs o st [] frame = [] ∧
    gatedPairs o st [] frame =
      st.tracks.map
        (fun t => ({ t with skippedFrames := t.skippedFrames + 1 }, (none : Option ℕ))) ∧
    bornTracks o st [] frame fps = [] ∧
    (CTracker.Update o st [] frame fps).tracks =
      ((st.tracks.map (fun t => { t with skippedFrames := t.skippedFrames + 1 })).filter
        (fun t => !retireCond st.settings fps t)).map
        (fun t => CTrack.update t CRegion.empty none false st.settings.maxTraceLength
          st.prevFrame frame 0 st.settings.maxSpeedForStatic) := by
  have hassign : solvedAssign o st [] frame =
      List.replicate st.tracks.length (none : Option ℕ) := by
    rw [List.eq_replicate_iff]
    refine ⟨hv.1, ?_⟩
    intro b hb
    cases b with
    | none => rfl
    | some j => exact absurd (hv.entry_lt hb) (by omega)
  have hgated : gatedPairs o st [] frame =
      st.tracks.map
        (fun t => ({ t with skippedFrames := t.skippedFrames + 1 }, (none : Option ℕ))) := by
    unfold gatedPairs
    rw [hassign, zip_replicate_none]
    rw [gateList_all_none _ _ _ _ (by
      intro p hp
      simp only [List.mem_map] at hp
      obtain ⟨t, ht, rfl⟩ := hp
      rfl)]
    rw [List.map_map]
    rfl
  have hborn : bornTracks o st [] frame fps = [] := rfl
  refine ⟨rfl, hgated, hborn, ?_⟩
  have htracks : (CTracker.Update o st [] frame fps).tracks =
      updatePhase st.settings [] (regionEmbs o st [] frame) st.prevFrame frame fps
        (retainedPairs o st [] frame fps) ++ bornTracks o st [] frame fps := rfl
  rw [htracks, hborn, List.append_nil]
  unfold retainedPairs
  rw [retireLoop_eq_filter, hgated, List.filter_map]
  unfold updatePhase
  rw [List.map_map, List.filter_map, List.map_map]
  exact List.map_congr_left (fun t _ => rfl)

/-- Witness for C7: the concrete one-track state with an empty frame yields a
valid solver output and the claimed gated shape. -/
theorem claim7_empty_frame_witness :
    ValidAssignment (solvedAssign oraclesW2 stW2 [] frameW) stW2.tracks.length 0 ∧
    gatedPairs oraclesW2 stW2 [] frameW =
      stW2.tracks.map
        (fun t => ({ t with skippedFrames := t.skippedFrames + 1 }, (none : Option ℕ))) := by
  have hv : ValidAssignment (solvedAssign oraclesW2 stW2 [] frameW) stW2.tracks.length 0 := by
    refine ⟨by decide, by decide, by decide⟩
  exact ⟨hv, (claim7_empty_frame oraclesW2 stW2 frameW 30 hv).2.1⟩

/-! Claim C8: the stored previous frame. -/

/-- C8.  The stored previous frame is empty before the first `Update`; after
any `Update` it equals the current frame passed to that call; and the frame
copy, performed after `UpdateTrackingState`, does not affect the rest of the
state mutation (tracks, id counter, settings and backends are exactly those of
`UpdateTrackingState`, which reads the old stored frame). -/
theorem claim8_prev_frame (o : Oracles) (st : CTracker) (regions : List CRegion)
    (frame : Frame) (fps : ℚ) (s : TrackerSettings)
    (initf : EmbParam → Option EmbeddingsCalculator) :
    (CTracker.init s initf).prevFrame = Frame.empty ∧
    (CTracker.Update o st regions frame fps).prevFrame = frame ∧
    (CTracker.Update o st regions frame fps).tracks =
      (UpdateTrackingState o st regions frame fps).tracks ∧
    (CTracker.Update o st regions frame fps).nextTrackID =
      (UpdateTrackingState o st regions frame fps).nextTrackID ∧
    (CTracker.Update o st regions frame fps).settings = st.settings ∧
    (CTracker.Update o st regions frame fps).embCalculators = st.embCalculators :=
  ⟨rfl, rfl, rfl, rfl, rfl, rfl⟩

/-! Claim C9: determinism of the parallel update loop. -/

/-- One iteration of the parallel update loop as an in-place write: position
`i` of the track vector is replaced using the per-index body `f`. -/
def updateAt (f : ℕ → CTrack → CTrack) (ts : List CTrack) (i : ℕ) : List CTrack :=
  ts.set i (f i (ts.getD i default))

/-- The update loop executed sequentially in an arbitrary schedule: the OpenMP
runtime may process the disjoint indices in any order. -/
def runSched (f : ℕ → CTrack → CTrack) (sched : List ℕ) (ts : List CTrack) : List CTrack :=
  sched.foldl (updateAt f) ts

theorem runSched_length (f : ℕ → CTrack → CTrack) :
    ∀ (sched : List ℕ) (ts : List CTrack), (runSched f sched ts).length = ts.length := by
  intro sched
  induction sched with
  | nil => intro ts; rfl
  | cons i rest ih =>
    intro ts
    show (runSched f rest (updateAt f ts i)).length = ts.length
    rw [ih, updateAt, List.length_set]

theorem runSched_getD (f : ℕ → CTrack → CTrack) :
    ∀ (sched : List ℕ) (ts : List CTrack), sched.Nodup →
      (∀ i ∈ sched, i < ts.length) → ∀ k : ℕ, k < ts.length →
      (runSched f sched ts).getD k default =
        if k ∈ sched then f k (ts.getD k default) else ts.getD k default := by
  intro sched
  induction sched with
  | nil => intro ts _ _ k hk; simp [runSched]
  | cons i rest ih =>
    intro ts hnd hbound k hk
    have hil : i < ts.length := hbound i (List.mem_cons_self i rest)
    have hrest_nd : rest.Nodup := (List.nodup_cons.mp hnd).2
    have hi_nr : i ∉ rest := (List.nodup_cons.mp hnd).1
    have hlen' : (updateAt f ts i).length = ts.length := by
      rw [updateAt, List.length_set]
    have hstep : runSched f (i :: rest) ts = runSched f rest (updateAt f ts i) := rfl
    rw [hstep]
    have hbound' : ∀ m ∈ rest, m < (updateAt f ts i).length := by
      intro m hm
      rw [hlen']
      exact hbound m (List.mem_cons_of_mem _ hm)
    have hrec := ih (updateAt f ts i) hrest_nd hbound' k (by omega)
    rw [hrec]
    by_cases hki : k = i
    · subst hki
      have hknr : k ∉ rest := hi_nr
      rw [if_neg hknr, if_pos (List.mem_cons_self k rest)]
      have hklen : k < (ts.set k (f k (ts.getD k default))).length := by
        rw [List.length_set]
        exact hk
      rw [updateAt, List.getD_eq_getElem _ _ hklen]
      rw [List.getElem_set_self hklen]
    · have hset : (updateAt f ts i).getD k default = ts.getD k default := by
        have hklen : k < (ts.set i (f i (ts.getD i default))).length := by
          rw [List.length_set]
          exact hk
        rw [updateAt, List.getD_eq_getElem _ _ hklen]
        rw [List.getElem_set_ne (fun h => hki h.symm)]
        rw [List.getD_eq_getElem _ _ hk]
      rw [hset]
      by_cases hkr : k ∈ rest
      · rw [if_pos hkr, if_pos (List.mem_cons_of_mem _ hkr)]
      · rw [if_neg hkr, if_neg (by
          intro h
          rcases List.mem_cons.mp h with h | h
          · exact hki h
          · exact hkr h)]

/-- Any schedule that is a permutation of the index range produces the
canonical per-index map. -/
theorem runSched_perm (f : ℕ → CTrack → CTrack) (ts : List CTrack) (sched : List ℕ)
    (hperm : sched.Perm (List.range ts.length)) :
    runSched f sched ts = (List.range ts.length).map (fun i => f i (ts.getD i default)) := by
  have hnd : sched.Nodup := hperm.nodup_iff.mpr (List.nodup_range _)
  have hbound : ∀ i ∈ sched, i < ts.length := by
    intro i hi
    have := hperm.mem_iff.mp hi
    rwa [List.mem_range] at this
  apply List.ext_getElem
  · rw [runSched_length, List.length_map, List.length_range]
  · intro k h1 h2
    have hk : k < ts.length := by rwa [runSched_length] at h1
    have hget := runSched_getD f sched ts hnd hbound k hk
    have hmem : k ∈ sched := by
      rw [hperm.mem_iff, List.mem_range]
      exact hk
    rw [if_pos hmem] at hget
    rw [← List.getD_eq_getElem _ default h1, hget]
    rw [List.getElem_map, List.getElem_range]

/-- The scheduled loop over the retained slots equals the sequential update
phase, for any schedule that is a permutation of the slot indices. -/
theorem updatePhase_eq_runSched (s : TrackerSettings) (regions : List CRegion)
    (rembs : List RegionEmbedding) (pf cf : Frame) (fps : ℚ)
    (pairs : List (CTrack × Option ℕ)) (sched : List ℕ)
    (hperm : sched.Perm (List.range pairs.length)) :
    runSched
      (fun i t => updateBody s regions rembs pf cf fps (t, (pairs.map Prod.snd).getD i none))
      sched (pairs.map Prod.fst) =
      updatePhase s regions rembs pf cf fps pairs := by
  have hlen : (pairs.map Prod.fst).length = pairs.length := List.length_map _ _
  rw [runSched_perm _ _ sched (by rwa [hlen])]
  rw [hlen]
  apply List.ext_getElem
  · rw [List.length_map, List.length_range]
    unfold updatePhase
    rw [List.length_map]
  · intro k h1 h2
    have hk : k < pairs.length := by
      rw [List.length_map, List.length_range] at h1
      exact h1
    rw [List.getElem_map, List.getElem_range]
    unfold updatePhase
    rw [List.getElem_map]
    have hfst : (pairs.map Prod.fst).getD k default = pairs[k].1 := by
      rw [List.getD_eq_getElem _ _ (by rw [List.length_map]; exact hk)]
      rw [List.getElem_map]
    have hsnd : (pairs.map Prod.snd).getD k none = pairs[k].2 := by
      rw [List.getD_eq_getElem _ _ (by rw [List.length_map]; exact hk)]
      rw [List.getElem_map]
    rw [hfst, hsnd]

/-- The final track set under an arbitrary schedule of the parallel loop. -/
def schedTracks (o : Oracles) (st : CTracker) (regions : List CRegion) (frame : Frame)
    (fps : ℚ) (sched : List ℕ) : List CTrack :=
  runSched
    (fun i t => updateBody st.settings regions (regionEmbs o st regions frame)
      st.prevFrame frame fps (t, (retainedAssign o st regions frame fps).getD i none))
    sched ((retainedPairs o st regions frame fps).map Prod.fst) ++
    bornTracks o st regions frame fps

/-- `CTracker::Update` with the parallel loop executed in an arbitrary
schedule. -/
def UpdateSched (o : Oracles) (st : CTracker) (regions : List CRegion) (frame : Frame)
    (fps : ℚ) (sched : List ℕ) : CTracker :=
  { st with
    tracks := schedTracks o st regions frame fps sched
    nextTrackID := nextIdAfterBirth o st regions frame fps
    prevFrame := frame }

/-- One frame under a valid schedule equals the canonical `Update`. -/
theorem UpdateSched_eq (o : Oracles) (st : CTracker) (regions : List CRegion)
    (frame : Frame) (fps : ℚ) (sched : List ℕ)
    (hperm : sched.Perm (List.range (retainedPairs o st regions frame fps).length)) :
    UpdateSched o st regions frame fps sched = CTracker.Update o st regions frame fps := by
  have h : schedTracks o st regions frame fps sched = finalTracks o st regions frame fps := by
    unfold schedTracks finalTracks
    have hra : retainedAssign o st regions frame fps =
        (retainedPairs o st regions frame fps).map Prod.snd := rfl
    rw [hra]
    rw [updatePhase_eq_runSched _ _ _ _ _ _ _ sched hperm]
  unfold UpdateSched CTracker.Update UpdateTrackingState
  rw [h]

/-- One frame of input: the regions, the current frame and the frame rate. -/
structure FrameInput where
  regions : List CRegion
  frame : Frame
  fps : ℚ

/-- A run of the tracker over a sequence of frames. -/
def runFrames (o : Oracles) : CTracker → List FrameInput → CTracker
  | st, [] => st
  | st, inp :: rest => runFrames o (CTracker.Update o st inp.regions inp.frame inp.fps) rest

/-- A run of the tracker over a sequence of frames, each with its own schedule
of the parallel loop. -/
def runFramesSched (o : Oracles) : CTracker → List (FrameInput × List ℕ) → CTracker
  | st, [] => st
  | st, pr :: rest =>
    runFramesSched o (UpdateSched o st pr.1.regions pr.1.frame pr.1.fps pr.2) rest

/-- Validity of a schedule sequence: at every frame the schedule is a
permutation of the surviving slot indices of that frame. -/
def SchedsValid (o : Oracles) : CTracker → List (FrameInput × List ℕ) → Prop
  | _, [] => True
  | st, pr :: rest =>
    pr.2.Perm (List.range (retainedPairs o st pr.1.regions pr.1.frame pr.1.fps).length) ∧
      SchedsValid o (CTracker.Update o st pr.1.regions pr.1.frame pr.1.fps) rest

/-- A validly scheduled run equals the canonical run on the same inputs. -/
theorem runFramesSched_eq_runFrames (o : Oracles) :
    ∀ (l : List (FrameInput × List ℕ)) (st : CTracker), SchedsValid o st l →
      runFramesSched o st l = runFrames o st (l.map Prod.fst) := by
  intro l
  induction l with
  | nil => intro st _; rfl
  | cons pr rest ih =>
    intro st h
    show runFramesSched o (UpdateSched o st pr.1.regions pr.1.frame pr.1.fps pr.2) rest = _
    rw [UpdateSched_eq o st pr.1.regions pr.1.frame pr.1.fps pr.2 h.1]
    exact ih _ h.2

/-- Validity restricts to prefixes. -/
theorem SchedsValid_take (o : Oracles) :
    ∀ (l : List (FrameInput × List ℕ)) (st : CTracker) (n : ℕ), SchedsValid o st l →
      SchedsValid o st (l.take n) := by
  intro l
  induction l with
  | nil => intro st n _; simp [SchedsValid]
  | cons pr rest ih =>
    intro st n h
    cases n with
    | zero => exact trivial
    | succ m => exact ⟨h.1, ih _ m h.2⟩

/-- C9.  Two runs of the tracker from the same state over the same frame
inputs produce identical tracker states after every frame, whatever order the
parallel per-track update loop processed the track indices in each frame. -/
theorem claim9_determinism (o : Oracles) (st : CTracker)
    (l1 l2 : List (FrameInput × List ℕ)) (h1 : SchedsValid o st l1)
    (h2 : SchedsValid o st l2) (hsame : l1.map Prod.fst = l2.map Prod.fst) :
    ∀ n : ℕ, runFramesSched o st (l1.take n) = runFramesSched o st (l2.take n) := by
  intro n
  rw [runFramesSched_eq_runFrames o _ st (SchedsValid_take o l1 st n h1)]
  rw [runFramesSched_eq_runFrames o _ st (SchedsValid_take o l2 st n h2)]
  rw [List.map_take, List.map_take, hsame]

/-- Second witness track, id 1. -/
def trackW9 : CTrack := CTrack.newTrack regW none 1

/-- Witness oracles for C9: solver leaves both tracks unassigned. -/
def oraclesW9 : Oracles :=
  { gm := gmZero, histCalc := fun _ _ => [], solve := fun _ _ _ _ => [none, none] }

/-- Witness state for C9: two live tracks. -/
def stW9 : CTracker :=
  { settings := settingsW
    nextTrackID := 2
    tracks := [trackW, trackW9]
    prevFrame := Frame.empty
    embCalculators := [] }

/-- Witness frame input for C9. -/
def inpW9 : FrameInput := ⟨[], frameW, 30⟩

/-- First schedule sequence: ascending order. -/
def schedsA : List (FrameInput × List ℕ) := [(inpW9, [0, 1])]

/-- Second schedule sequence: descending order. -/
def schedsB : List (FrameInput × List ℕ) := [(inpW9, [1, 0])]

/-- Witness for C9: the two concrete opposite schedules are valid and the runs
agree after the frame. -/
theorem claim9_determinism_witness :
    SchedsValid oraclesW9 stW9 schedsA ∧ SchedsValid oraclesW9 stW9 schedsB ∧
    schedsA.map Prod.fst = schedsB.map Prod.fst ∧
    runFramesSched oraclesW9 stW9 (schedsA.take 1) =
      runFramesSched oraclesW9 stW9 (schedsB.take 1) := by
  have hgate : gatedPairs oraclesW9 stW9 [] frameW =
      [({ trackW with skippedFrames := 1 }, none),
        ({ trackW9 with skippedFrames := 1 }, none)] := by
    simp only [gatedPairs, solvedAssign, stW9, oraclesW9, gateList, gateOne]
    norm_num
    constructor <;> rfl
  have hcv : cvRound ((30 : ℚ) * (settingsW.maxStaticTime - settingsW.minStaticTime)) = 30 := by
    norm_num [cvRound, settingsW]
  have hcond1 : retireCond stW9.settings 30 ({ trackW with skippedFrames := 1 }) = false := by
    unfold retireCond
    have h1 : stW9.settings = settingsW := rfl
    rw [h1, hcv]
    rfl
  have hcond2 : retireCond stW9.settings 30 ({ trackW9 with skippedFrames := 1 }) = false := by
    unfold retireCond
    have h1 : stW9.settings = settingsW := rfl
    rw [h1, hcv]
    rfl
  have hlen : (retainedPairs oraclesW9 stW9 [] frameW 30).length = 2 := by
    unfold retainedPairs
    rw [retireLoop_eq_filter, hgate]
    simp only [List.filter_cons, List.filter_nil]
    rw [(rfl : stW9.settings = settingsW)] at hcond1 hcond2
    rw [(rfl : stW9.settings = settingsW)]
    rw [hcond1, hcond2]
    rfl
  have hperm1 : ([0, 1] : List ℕ).Perm
      (List.range (retainedPairs oraclesW9 stW9 inpW9.regions inpW9.frame inpW9.fps).length) := by
    have hr : retainedPairs oraclesW9 stW9 inpW9.regions inpW9.frame inpW9.fps =
        retainedPairs oraclesW9 stW9 [] frameW 30 := rfl
    rw [hr, hlen]
    decide
  have hperm2 : ([1, 0] : List ℕ).Perm
      (List.range (retainedPairs oraclesW9 stW9 inpW9.regions inpW9.frame inpW9.fps).length) := by
    have hr : retainedPairs oraclesW9 stW9 inpW9.regions inpW9.frame inpW9.fps =
        retainedPairs oraclesW9 stW9 [] frameW 30 := rfl
    rw [hr, hlen]
    decide
  have h1 : SchedsValid oraclesW9 stW9 schedsA := ⟨hperm1, trivial⟩
  have h2 : SchedsValid oraclesW9 stW9 schedsB := ⟨hperm2, trivial⟩
  exact ⟨h1, h2, rfl, claim9_determinism oraclesW9 stW9 schedsA schedsB h1 h2 rfl 1⟩

/-! Claim C10: the appearance vector is always sized with the regions. -/

/-- Every slot index still assigned after gating and retirement is a region
index the solver produced, hence below the region count under the solver
contract. -/
theorem retainedPairs_assigned_lt (o : Oracles) (st : CTracker) (regions : List CRegion)
    (frame : Frame) (fps : ℚ)
    (hv : ValidAssignment (solvedAssign o st regions frame) st.tracks.length
      regions.length)
    (p : CTrack × Option ℕ) (hp : p ∈ retainedPairs o st regions frame fps) (j : ℕ)
    (hj : p.2 = some j) : j < regions.length := by
  have hpg : p ∈ gatedPairs o st regions frame := by
    unfold retainedPairs at hp
    rw [retireLoop_eq_filter] at hp
    exact (List.mem_filter.mp hp).1
  obtain ⟨q, hq, hq2⟩ := gateList_some_src _ _ 0 _ p hpg j hj
  have hmem : q.2 ∈ solvedAssign o st regions frame := by
    rcases q with ⟨t, a⟩
    exact (List.of_mem_zip hq).2
  rw [hq2] at hmem
  exact hv.entry_lt hmem

/-- C10.  With at least one region, the appearance vector has exactly one slot
per region even when both appearance weights are zero; consequently every
newborn track is constructed with its region's `RegionEmbedding`, every
assigned track is updated with its region's `RegionEmbedding`, and all
`regionEmbeddings` indexing is in bounds. -/
theorem claim10_region_embeddings (o : Oracles) (st : CTracker) (regions : List CRegion)
    (frame : Frame) (fps : ℚ) (hne : regions ≠ [])
    (hv : ValidAssignment (solvedAssign o st regions frame) st.tracks.length
      regions.length) :
    (regionEmbs o st regions frame).length = regions.length ∧
    (regionEmbs o st regions frame).isEmpty = false ∧
    (∀ i : ℕ, embOf (regionEmbs o st regions frame) i =
      some ((regionEmbs o st regions frame).getD i RegionEmbedding.empty)) ∧
    (∀ p ∈ retainedPairs o st regions frame fps, ∀ j : ℕ, p.2 = some j →
      j < (regionEmbs o st regions frame).length ∧
      updateBody st.settings regions (regionEmbs o st regions frame) st.prevFrame frame
          fps p =
        CTrack.update { p.1 with skippedFrames := 0 } (regions.getD j default)
          (some ((regionEmbs o st regions frame).getD j RegionEmbedding.empty)) true
          st.settings.maxTraceLength st.prevFrame frame
          (if st.settings.useAbandonedDetection then
            cvRound (st.settings.minStaticTime * fps) else 0)
          st.settings.maxSpeedForStatic) ∧
    (∀ t ∈ bornTracks o st regions frame fps, ∃ i : ℕ, i < regions.length ∧
      t.lastRegion = regions.getD i default ∧
      t.regionEmbedding =
        some ((regionEmbs o st regions frame).getD i RegionEmbedding.empty)) := by
  have hlen : (regionEmbs o st regions frame).length = regions.length :=
    CalcEmbeddins_length _ _ _ _ _ hne
  have hbe : (regionEmbs o st regions frame).isEmpty = false := by
    cases hre : regionEmbs o st regions frame with
    | nil =>
      rw [hre] at hlen
      cases regions with
      | nil => exact absurd rfl hne
      | cons r rest => simp at hlen
    | cons x xs => rfl
  have hembOf : ∀ i : ℕ, embOf (regionEmbs o st regions frame) i =
      some ((regionEmbs o st regions frame).getD i RegionEmbedding.empty) := by
    intro i
    unfold embOf
    rw [hbe]
    rfl
  refine ⟨hlen, hbe, hembOf, ?_, ?_⟩
  · intro p hp j hj
    refine ⟨by rw [hlen]; exact retainedPairs_assigned_lt o st regions frame fps hv p hp j hj, ?_⟩
    rcases p with ⟨t, a⟩
    simp only at hj
    subst hj
    simp only [updateBody, hbe]
    rfl
  · intro t ht
    rw [bornTracks_eq_mkNews] at ht
    obtain ⟨pr, hpr, k, hk, rfl⟩ := mkNews_mem _ _ _ _ ht
    have hprw : pr ∈ withIdx 0 regions := (List.mem_filter.mp hpr).1
    obtain ⟨h0, hlt, hget⟩ := withIdx_mem 0 regions pr hprw
    refine ⟨pr.1, by simpa using hlt, ?_, ?_⟩
    · show pr.2 = regions.getD pr.1 default
      rw [← hget]
      congr 1
    · show embOf (regionEmbs o st regions frame) pr.1 = _
      exact hembOf pr.1

/-- Witness for C10: one region with the trivial oracle yields exactly one
appearance slot. -/
theorem claim10_region_embeddings_witness :
    ([regW] : List CRegion) ≠ [] ∧
    ValidAssignment (solvedAssign oraclesW1 stW1 [regW] frameW) stW1.tracks.length
      ([regW] : List CRegion).length ∧
    (regionEmbs oraclesW1 stW1 [regW] frameW).length = ([regW] : List CRegion).length := by
  have hne : ([regW] : List CRegion) ≠ [] := by simp
  have hv : ValidAssignment (solvedAssign oraclesW1 stW1 [regW] frameW)
      stW1.tracks.length ([regW] : List CRegion).length := by
    refine ⟨by decide, by decide, by decide⟩
  exact ⟨hne, hv, (claim10_region_embeddings oraclesW1 stW1 [regW] frameW 30 hne hv).1⟩
